import Mathlib

/-!
Shallow embedding of `Python_Interface/Recommender.py` (disjoint LinUCB /
LinUCB+ recommender with an online-trained RNN residual corrector), together
with theorems settling the specification claims.

Conventions of the embedding:
* NumPy float64 / torch float32 arithmetic is modelled by exact real
  arithmetic (`ℝ`); `d`-vectors are `Fin d → ℝ` and matrices are
  `Matrix (Fin d) (Fin d) ℝ`.
* Python `dict`s keyed by item id are total functions into `Option`;
  a `KeyError` is the `none` case.
* Operations that can raise (`KeyError`, `numpy.linalg.LinAlgError`) return
  `Option`; `none` is the raising outcome.
* Randomized parameter initialization (`RNN.reset_parameters`) is modelled by
  taking the initial parameter values as an argument.
* File I/O is modelled by passing the current contents of the `.npz` file
  (or `none` for an absent/unreadable file) explicitly.
-/

namespace MusicRec

open Matrix

open scoped Classical

noncomputable section

/-- Model of `MusicItem.__init__` for a fixed feature dimension `d`:
`id` plus the arm feature vector `x_{t,a}` (`self.features`). -/
structure MusicItem (d : ℕ) where
  id : ℕ
  features : Fin d → ℝ

/-- Dynamically sized music item, for `MusicItem.__init__` itself, whose
feature length is only determined at run time. -/
structure RawItem where
  id : ℕ
  features : List ℝ

/-- Model of `MusicItem.__init__`: when `features` is not `None` it is stored
(after `_to_numpy_1d` flattening, abstracted here as an already 1-d list);
when it is `None`, the constructor stores `np.ones(kwargs.get("feature_dim", 5))`,
an all-ones vector whose length is the `feature_dim` kwarg (default `5`). -/
def RawItem.make (id : ℕ) (features : Option (List ℝ)) (feature_dim : Option ℕ) :
    RawItem :=
  match features with
  | some f => ⟨id, f⟩
  | none => ⟨id, List.replicate (feature_dim.getD 5) 1⟩

/-- The `policy` string of `Recommender.__init__` ("LinUCB" or "LinUCB+"). -/
inductive Policy where
  | LinUCB : Policy
  | LinUCBPlus : Policy
deriving DecidableEq

/-! ## RNN residual model (`class RNN`) -/

/-- The six trainable tensors of `RNN`: the recurrent cell
`h_t = tanh(W_ih x_t + b_ih + W_hh h_{t-1} + b_hh)` and the output projection
`β_t = W_output h_t + b_output`. -/
structure RNNParams (d H : ℕ) where
  W_ih : Matrix (Fin H) (Fin d) ℝ
  b_ih : Fin H → ℝ
  W_hh : Matrix (Fin H) (Fin H) ℝ
  b_hh : Fin H → ℝ
  W_output : Matrix (Fin d) (Fin H) ℝ
  b_output : Fin d → ℝ

namespace RNNParams

/-- All-zero parameter bundle. -/
def zero (d H : ℕ) : RNNParams d H :=
  ⟨fun _ _ => 0, fun _ => 0, fun _ _ => 0, fun _ => 0, fun _ _ => 0, fun _ => 0⟩

/-- Elementwise combination of two parameter bundles (the optimizer treats
every tensor entry independently). -/
def map2 {d H : ℕ} (f : ℝ → ℝ → ℝ) (p q : RNNParams d H) : RNNParams d H where
  W_ih := fun i j => f (p.W_ih i j) (q.W_ih i j)
  b_ih := fun i => f (p.b_ih i) (q.b_ih i)
  W_hh := fun i j => f (p.W_hh i j) (q.W_hh i j)
  b_hh := fun i => f (p.b_hh i) (q.b_hh i)
  W_output := fun i j => f (p.W_output i j) (q.W_output i j)
  b_output := fun i => f (p.b_output i) (q.b_output i)

/-- Elementwise combination of three parameter bundles. -/
def map3 {d H : ℕ} (f : ℝ → ℝ → ℝ → ℝ) (p q r : RNNParams d H) : RNNParams d H where
  W_ih := fun i j => f (p.W_ih i j) (q.W_ih i j) (r.W_ih i j)
  b_ih := fun i => f (p.b_ih i) (q.b_ih i) (r.b_ih i)
  W_hh := fun i j => f (p.W_hh i j) (q.W_hh i j) (r.W_hh i j)
  b_hh := fun i => f (p.b_hh i) (q.b_hh i) (r.b_hh i)
  W_output := fun i j => f (p.W_output i j) (q.W_output i j) (r.W_output i j)
  b_output := fun i => f (p.b_output i) (q.b_output i) (r.b_output i)

end RNNParams

/-- State of `torch.optim.Adam` over the six RNN tensors: first / second
moment estimates and the step counter (all zero before the first step). -/
structure AdamState (d H : ℕ) where
  m : RNNParams d H
  v : RNNParams d H
  step : ℕ

/-- Fresh Adam state (PyTorch initializes the moments lazily to zeros). -/
def AdamState.start (d H : ℕ) : AdamState d H :=
  ⟨RNNParams.zero d H, RNNParams.zero d H, 0⟩

/-- Adam hyperparameters: PyTorch defaults `betas=(0.9, 0.999)`, `eps=1e-8`. -/
def adamBeta1 : ℝ := 0.9

/-- Second-moment decay rate of Adam. -/
def adamBeta2 : ℝ := 0.999

/-- Numerical-stability constant of Adam. -/
def adamEps : ℝ := 1e-8

/-- One `optimizer.step()` of `torch.optim.Adam` (no weight decay, no
amsgrad): `mₜ = β₁m + (1-β₁)g`, `vₜ = β₂v + (1-β₂)g²`,
`θ ← θ − lr·(mₜ/(1-β₁ᵗ)) / (sqrt(vₜ/(1-β₂ᵗ)) + ε)`, applied entrywise to all
six tensors.  Returns the new optimizer state and the new parameters. -/
def adamUpdate {d H : ℕ} (lr : ℝ) (st : AdamState d H) (p g : RNNParams d H) :
    AdamState d H × RNNParams d H :=
  let t := st.step + 1
  let m := RNNParams.map2 (fun m g => adamBeta1 * m + (1 - adamBeta1) * g) st.m g
  let v := RNNParams.map2 (fun v g => adamBeta2 * v + (1 - adamBeta2) * g ^ 2) st.v g
  let p' := RNNParams.map3
    (fun θ m v => θ - lr * (m / (1 - adamBeta1 ^ t)) / (Real.sqrt (v / (1 - adamBeta2 ^ t)) + adamEps))
    p m v
  (⟨m, v, t⟩, p')

/-- Full mutable state of an `RNN` instance: trainable parameters, the
deferred bootstrap state `X_t_1`/`h_t_1` (`None` until the first training
call), the cached `beta_t`, and the Adam optimizer state. -/
structure RNNState (d H : ℕ) where
  params : RNNParams d H
  X_t_1 : Option (Fin d → ℝ)
  h_t_1 : Option (Fin H → ℝ)
  beta_t : Fin d → ℝ
  adam : AdamState d H

/-- Fresh `RNN` instance with the given (randomly drawn) initial parameters:
`X_t_1 = None`, `h_t_1 = None`, `beta_t = 0`, fresh optimizer. -/
def RNNState.start {d H : ℕ} (p : RNNParams d H) : RNNState d H :=
  ⟨p, none, none, fun _ => 0, AdamState.start d H⟩

/-- Model of `RNN.forward` (with the default `tanh` nonlinearity, the one the
`Recommender` constructs): given input `x_t` and optional previous hidden
state `h0` (`None` becomes zeros), return
`(h_t, β_t) = (tanh(W_ih x + b_ih + W_hh h + b_hh), W_output h_t + b_output)`.
Pure: it mutates nothing. -/
def rnnForward {d H : ℕ} (p : RNNParams d H) (x : Fin d → ℝ)
    (h0 : Option (Fin H → ℝ)) : (Fin H → ℝ) × (Fin d → ℝ) :=
  let hPrev := h0.getD (fun _ => 0)
  let h := fun i =>
    Real.tanh ((p.W_ih *ᵥ x) i + p.b_ih i + (p.W_hh *ᵥ hPrev) i + p.b_hh i)
  (h, fun i => (p.W_output *ᵥ h) i + p.b_output i)

/-- Gradient, with respect to the six trainable tensors, of the loss
`F.mse_loss(⟨β_t, x_now⟩, reward)` computed by `loss.backward()` in
`RNN.train_per_update`, where `(h_t, β_t) = forward(xPrev, hPrev)` and `hPrev`
is detached (no gradient flows into the previous hidden state).  This is the
chain rule through `pred = β·x_now`, `β = W_output h + b_output`,
`h = tanh z`, `z = W_ih xPrev + b_ih + W_hh hPrev + b_hh`. -/
def lossGrad {d H : ℕ} (p : RNNParams d H) (xPrev : Fin d → ℝ)
    (hPrev : Fin H → ℝ) (xNow : Fin d → ℝ) (target : ℝ) : RNNParams d H :=
  let z := fun i => (p.W_ih *ᵥ xPrev) i + p.b_ih i + (p.W_hh *ᵥ hPrev) i + p.b_hh i
  let h := fun i => Real.tanh (z i)
  let beta := fun i => (p.W_output *ᵥ h) i + p.b_output i
  let pred := beta ⬝ᵥ xNow
  let dbeta := fun i => 2 * (pred - target) * xNow i
  let dh := fun j => ∑ i, dbeta i * p.W_output i j
  let dz := fun j => dh j * (1 - h j ^ 2)
  { W_ih := fun i j => dz i * xPrev j
    b_ih := dz
    W_hh := fun i j => dz i * hPrev j
    b_hh := dz
    W_output := fun i j => dbeta i * h j
    b_output := dbeta }

/-- Model of `RNN.train_per_update(features, reward, lr)`.  Mirrors the
source line by line: if `X_t_1` or `h_t_1` is `None`, both are first seeded to
`(features, zeros)`; the learning rate of every optimizer group is set to
`lr`; gradients are zeroed; `(h_t_1, beta_t) = forward(X_t_1, h_t_1)` is the
one-step-delayed forward pass; `X_t_1` is then overwritten with the current
`features`; the loss is the squared error between `⟨beta_t, features⟩` (the
dot product with the *current* input) and `reward`; one Adam step is taken. -/
def trainPerUpdate {d H : ℕ} (s : RNNState d H) (features : Fin d → ℝ)
    (reward : ℝ) (lr : ℝ) : RNNState d H :=
  let seeded : (Fin d → ℝ) × (Fin H → ℝ) :=
    match s.X_t_1, s.h_t_1 with
    | some xp, some hp => (xp, hp)
    | _, _ => (features, fun _ => 0)
  let fw := rnnForward s.params seeded.1 (some seeded.2)
  let g := lossGrad s.params seeded.1 seeded.2 features reward
  let upd := adamUpdate lr s.adam s.params g
  { params := upd.2
    X_t_1 := some features
    h_t_1 := some fw.1
    beta_t := fw.2
    adam := upd.1 }

/-! ## Recommender state (`class Recommender`) -/

/-- In-memory state of a `Recommender` instance: the hyperparameters, the
playlist (working set of arms), the per-arm sufficient-statistic dicts `_A`
and `_b` (absent key = `none`), the optional RNN corrector (present exactly
in `LinUCB+` mode) and `last_selected_id`. -/
structure RecState (d H : ℕ) where
  playlist : List (MusicItem d)
  alpha : ℝ
  l2 : ℝ
  policy : Policy
  discount : ℝ
  _A : ℕ → Option (Matrix (Fin d) (Fin d) ℝ)
  _b : ℕ → Option (Fin d → ℝ)
  rnn : Option (RNNState d H)
  last_selected_id : Option ℕ

/-- Model of `np.linalg.solve(A, b)`: `some (A⁻¹ b)` for an invertible `A`,
`none` (a raised `LinAlgError`) for a singular `A`. -/
def npSolve {d : ℕ} (A : Matrix (Fin d) (Fin d) ℝ) (b : Fin d → ℝ) :
    Option (Fin d → ℝ) :=
  if IsUnit A.det then some (A⁻¹ *ᵥ b) else none

/-- Model of `np.linalg.inv(A)`: `some A⁻¹` for an invertible `A`, `none`
(a raised `LinAlgError`) for a singular `A`. -/
def npInv {d : ℕ} (A : Matrix (Fin d) (Fin d) ℝ) :
    Option (Matrix (Fin d) (Fin d) ℝ) :=
  if IsUnit A.det then some A⁻¹ else none

/-- Model of `Recommender.__init__` with `initialization=True` (the
parameter-loading branch performs file I/O and is out of scope here): stores
the hyperparameters, initializes `A = l2·I`, `b = 0` for every playlist item,
constructs (and `load_model`s) the RNN exactly in `LinUCB+` mode — where the
post-load parameter values are the argument `rnn0` and an empty playlist makes
`self.playlist[0]` raise `IndexError` (`none`) — and sets
`last_selected_id = None`. -/
def mkRecommender {d H : ℕ} (playlist : List (MusicItem d)) (alpha l2 : ℝ)
    (policy : Policy) (discount : ℝ) (rnn0 : RNNParams d H) :
    Option (RecState d H) :=
  let A0 : ℕ → Option (Matrix (Fin d) (Fin d) ℝ) :=
    playlist.foldl (fun m it => Function.update m it.id (some (l2 • (1 : Matrix (Fin d) (Fin d) ℝ)))) (fun _ => none)
  let b0 : ℕ → Option (Fin d → ℝ) :=
    playlist.foldl (fun m it => Function.update m it.id (some (0 : Fin d → ℝ))) (fun _ => none)
  match policy with
  | .LinUCB => some ⟨playlist, alpha, l2, policy, discount, A0, b0, none, none⟩
  | .LinUCBPlus =>
    match playlist with
    | [] => none
    | _ :: _ =>
      some ⟨playlist, alpha, l2, policy, discount, A0, b0,
        some (RNNState.start rnn0), none⟩

/-- Model of `Recommender.feedback(item, reward)`: in `LinUCB+` mode compute
the residual `reward − ⟨solve(A,b), x⟩` from the pre-update statistics and
train the RNN on it (missing arm statistics raise `KeyError` = `none`,
a singular `A` raises `LinAlgError` = `none`); then the rank-1 update
`A += x xᵀ`, `b += reward·x`; finally `last_selected_id = item.id`. -/
def feedback {d H : ℕ} (s : RecState d H) (item : MusicItem d) (reward : ℝ) :
    Option (RecState d H) :=
  let x := item.features
  match s._A item.id, s._b item.id with
  | some A, some b =>
    let upd : Option (RNNState d H) → RecState d H := fun rnn' =>
      { s with
        _A := Function.update s._A item.id (some (A + vecMulVec x x))
        _b := Function.update s._b item.id (some (b + reward • x))
        rnn := rnn'
        last_selected_id := some item.id }
    match s.policy with
    | .LinUCB => some (upd s.rnn)
    | .LinUCBPlus =>
      match npSolve A b, s.rnn with
      | some theta, some rnnSt =>
        let reward' := reward - theta ⬝ᵥ x
        some (upd (some (trainPerUpdate rnnSt x reward' 1e-3)))
      | _, _ => none
  | _, _ => none

/-- Iterated feedback: left fold of `feedback` over a list of
`(item, reward)` pairs, propagating failure. -/
def runFeedback {d H : ℕ} (s : RecState d H) :
    List (MusicItem d × ℝ) → Option (RecState d H)
  | [] => some s
  | c :: cs => (feedback s c.1 c.2).bind (fun s' => runFeedback s' cs)

/-! ## Selection (`Recommender.selection`) -/

/-- The per-arm combined score `pta` of the loop body of
`Recommender.selection`, before the repeat-avoidance discount:
`⟨θ_a, x⟩ + alpha·sqrt(xᵀ A⁻¹ x)` with `θ_a = solve(A, b)`, plus `⟨β_t, x⟩`
in `LinUCB+` mode where `(_, β_t) = rnn.forward(x, rnn.h_t_1)`. -/
def ptaOf {d H : ℕ} (s : RecState d H) (it : MusicItem d) : Option ℝ := do
  let A ← s._A it.id
  let b ← s._b it.id
  let theta ← npSolve A b
  let Ainv ← npInv A
  let base := theta ⬝ᵥ it.features +
    s.alpha * Real.sqrt (it.features ⬝ᵥ (Ainv *ᵥ it.features))
  match s.policy with
  | .LinUCB => pure base
  | .LinUCBPlus => do
    let rnnSt ← s.rnn
    let fw := rnnForward rnnSt.params it.features rnnSt.h_t_1
    pure (base + fw.2 ⬝ᵥ it.features)

/-- Scored playlist: the `scores` list built by the loop of
`Recommender.selection`, including the discount
`pta *= discount` applied when `it.id == last_selected_id`. -/
def scoreList {d H : ℕ} (s : RecState d H) :
    List (MusicItem d) → Option (List (ℝ × MusicItem d))
  | [] => some []
  | it :: rest => do
    let pta ← ptaOf s it
    let pta := if s.last_selected_id = some it.id then pta * s.discount else pta
    let tail ← scoreList s rest
    pure ((pta, it) :: tail)

/-- Stable insertion of a scored item into a descending-sorted list: walk past
strictly greater scores, insert before the first score `≤` its own.  Earlier
elements win ties, as in Python's stable `list.sort`. -/
def insertDesc {d : ℕ} (p : ℝ × MusicItem d) :
    List (ℝ × MusicItem d) → List (ℝ × MusicItem d)
  | [] => [p]
  | q :: rest => if q.1 > p.1 then q :: insertDesc p rest else p :: q :: rest

/-- Stable descending insertion sort, modelling
`scores.sort(key=lambda tup: tup[0], reverse=True)` (Python's sort is stable;
`reverse=True` sorts descending while keeping equal elements in their original
order). -/
def sortDesc {d : ℕ} : List (ℝ × MusicItem d) → List (ℝ × MusicItem d)
  | [] => []
  | p :: rest => insertDesc p (sortDesc rest)

/-- Python list slicing `l[:n]` for an arbitrary (possibly negative) `int`
`n`: the first `n` elements when `n ≥ 0`, and all but the last `|n|` elements
when `n < 0`. -/
def pySlice {α : Type} (l : List α) (n : ℤ) : List α :=
  if 0 ≤ n then l.take n.toNat else l.take (l.length - (-n).toNat)

/-- Model of `Recommender.selection(n)`: score every playlist item, sort
stably by descending score, return the items of `scores[:n]`.  `none` models
an exception escaping the loop (`KeyError` / `LinAlgError` / missing RNN). -/
def selection {d H : ℕ} (s : RecState d H) (n : ℤ) : Option (List (MusicItem d)) :=
  (scoreList s s.playlist).map (fun sc => (pySlice (sortDesc sc) n).map Prod.snd)

/-! ## Persistence (`Recommender.save_params`) -/

/-- A value stored in the `.npz` snapshot: a `d×d` matrix (an `A_<id>` entry)
or a `d`-vector (a `b_<id>` entry). -/
inductive NpzEntry (d : ℕ) where
  | mat : Matrix (Fin d) (Fin d) ℝ → NpzEntry d
  | vec : (Fin d → ℝ) → NpzEntry d

/-- An `.npz` snapshot as an insertion-ordered dictionary of named arrays. -/
def Snapshot (d : ℕ) : Type := List (String × NpzEntry d)

/-- Python `dict` lookup. -/
def dictGet {d : ℕ} (k : String) : Snapshot d → Option (NpzEntry d)
  | [] => none
  | e :: rest => if e.1 = k then some e.2 else dictGet k rest

/-- Python `dict` assignment `dct[k] = v`: overwrite in place if the key
exists, else append. -/
def dictSet {d : ℕ} (k : String) (v : NpzEntry d) : Snapshot d → Snapshot d
  | [] => [(k, v)]
  | e :: rest => if e.1 = k then (k, v) :: rest else e :: dictSet k v rest

/-- The loop `for it in self.playlist: save_dict[f"A_{it.id}"] = self._A[it.id];
save_dict[f"b_{it.id}"] = self._b[it.id]` of `save_params`; a playlist item
whose id is missing from `_A`/`_b` raises `KeyError` (`none`). -/
def overlayWorkingSet {d : ℕ} (s : RecState d 0) : List (MusicItem d) →
    Snapshot d → Option (Snapshot d)
  | [], acc => some acc
  | it :: rest, acc =>
    match s._A it.id, s._b it.id with
    | some A, some b =>
      overlayWorkingSet s rest
        (dictSet ("b_" ++ toString it.id) (.vec b)
          (dictSet ("A_" ++ toString it.id) (.mat A) acc))
    | _, _ => none

/-- Model of `Recommender.save_params`: `existing` is the parsed content of
the file at `self.storage`, or `none` when the file is absent or unreadable
(`np.load` raised) — in that case the starting dict is empty; every existing
entry is copied in file order, then the working-set entries overlay it.  The
result is the dictionary passed to `np.savez_compressed`. -/
def save_params {d : ℕ} (s : RecState d 0) (existing : Option (Snapshot d)) :
    Option (Snapshot d) :=
  let start : Snapshot d := match existing with
    | none => []
    | some l => l
  overlayWorkingSet s s.playlist start

/-! ## Derived quantities -/

/-- The upper-confidence exploration bonus `alpha · sqrt(xᵀ A⁻¹ x)` appearing
in the score `pta` of `Recommender.selection`. -/
def expBonus {d : ℕ} (alpha : ℝ) (A : Matrix (Fin d) (Fin d) ℝ)
    (x : Fin d → ℝ) : ℝ :=
  alpha * Real.sqrt (x ⬝ᵥ (A⁻¹ *ᵥ x))

/-! ## Concrete instances used by the claim theorems -/

/-- Concrete five-arm snapshot used by the merge-on-save scenario. -/
def fiveArmFile : Snapshot 1 :=
  [(("A_10"), .mat 0), (("b_10"), .vec 0),
   (("A_11"), .mat 0), (("b_11"), .vec 0),
   (("A_12"), .mat 0), (("b_12"), .vec 0),
   (("A_13"), .mat 0), (("b_13"), .vec 0),
   (("A_14"), .mat 0), (("b_14"), .vec 0)]

/-- Concrete two-arm working set used by the merge-on-save scenario. -/
def twoArmState : RecState 1 0 :=
  ⟨[⟨1, fun _ => 1⟩, ⟨2, fun _ => 1⟩], 1, 1, .LinUCB, 7/10,
    (fun i => if i = 1 ∨ i = 2 then some 1 else none),
    (fun i => if i = 1 ∨ i = 2 then some 0 else none), none, none⟩

/-- Concrete two-arm LinUCB state used for the selection-slicing claims. -/
def twoArmSel : RecState 1 0 :=
  ⟨[⟨0, fun _ => 1⟩, ⟨1, fun _ => 1⟩], 0, 1, .LinUCB, 7/10,
    (fun i => if i = 0 ∨ i = 1 then some 1 else none),
    (fun i => if i = 0 ∨ i = 1 then some 0 else none), none, none⟩

/-- Concrete one-arm LinUCB state with `alpha = 0` (exploration disabled). -/
def oneArmAlpha0 : RecState 1 0 :=
  ⟨[⟨0, fun _ => 1⟩], 0, 1, .LinUCB, 7/10,
    (fun i => if i = 0 then some 1 else none),
    (fun i => if i = 0 then some 0 else none), none, none⟩

/-- Concrete one-arm LinUCB state with `alpha = 1`. -/
def oneArmAlpha1 : RecState 1 0 :=
  ⟨[⟨0, fun _ => 1⟩], 1, 1, .LinUCB, 7/10,
    (fun i => if i = 0 then some 1 else none),
    (fun i => if i = 0 then some 0 else none), none, none⟩

/-- Placeholder state (used only as an unreachable `getD` default). -/
def voidState : RecState 1 0 :=
  ⟨[], 0, 0, .LinUCB, 0, fun _ => none, fun _ => none, none, none⟩

/-- State of a two-arm `alpha = 0` learner after feeding reward `-1` to arm 1
and then reward `-1` to arm 0 (so both arms have equal statistics and arm 0
is the last selected one). -/
def negPairState : RecState 1 0 :=
  ((mkRecommender [(⟨0, fun _ => 1⟩ : MusicItem 1), ⟨1, fun _ => 1⟩] 0 1
      .LinUCB (7/10) (RNNParams.zero 1 0)).bind
    (fun s0 => runFeedback s0
      [(⟨1, fun _ => 1⟩, -1), (⟨0, fun _ => 1⟩, -1)])).getD voidState

/-- State of a two-arm `alpha = 0` learner after feeding reward `1` to arm 1
and then reward `1` to arm 0. -/
def posPairState : RecState 1 0 :=
  ((mkRecommender [(⟨0, fun _ => 1⟩ : MusicItem 1), ⟨1, fun _ => 1⟩] 0 1
      .LinUCB (7/10) (RNNParams.zero 1 0)).bind
    (fun s0 => runFeedback s0
      [(⟨1, fun _ => 1⟩, 1), (⟨0, fun _ => 1⟩, 1)])).getD voidState

/-- Arm `A = (1, 0)` of the end-to-end scenario. -/
def itemA : MusicItem 2 := ⟨0, ![1, 0]⟩

/-- Arm `B = (0, 1)` of the end-to-end scenario. -/
def itemB : MusicItem 2 := ⟨1, ![0, 1]⟩

/-- Placeholder two-dimensional state (unreachable `getD` default). -/
def voidState2 : RecState 2 0 :=
  ⟨[], 0, 0, .LinUCB, 0, fun _ => none, fun _ => none, none, none⟩

/-- Freshly constructed learner of the end-to-end scenario
(`d = 2`, arms `A`, `B`, `alpha = 0`, `l2 = 1`, policy LinUCB). -/
def endState0 (dis : ℝ) : RecState 2 0 :=
  (mkRecommender [itemA, itemB] 0 1 .LinUCB dis
    (RNNParams.zero 2 0)).getD voidState2

/-- Freshly constructed residual model with all-zero parameters (`X_t_1` and
`h_t_1` are `None`: no training call has been made yet). -/
def rnnZeroState : RNNState 1 1 := RNNState.start (RNNParams.zero 1 1)

/-- Residual model in running mode: deferred state already seeded with
`last_input = (1)` and `last_hidden = 0`. -/
def rnnSeeded : RNNState 1 1 :=
  ⟨RNNParams.zero 1 1, some (fun _ => 1), some (fun _ => 0), fun _ => 0,
    AdamState.start 1 1⟩

/-- The scenario learner after 10 feedback calls of reward `1` on arm `A`. -/
def endState10 (dis : ℝ) : RecState 2 0 :=
  { endState0 dis with
    _A := Function.update (endState0 dis)._A 0
      (some ((1 : ℝ) • 1 + (10 : ℕ) • vecMulVec ![(1 : ℝ), 0] ![(1 : ℝ), 0]))
    _b := Function.update (endState0 dis)._b 0
      (some ((0 : Fin 2 → ℝ) + ((((9 : ℕ) : ℝ) + 1) * 1) • ![(1 : ℝ), 0]))
    last_selected_id := some 0 }

/-! ## Helper lemmas -/

/-- Value of the constructor's dict-building fold: an id in the list maps to
the constant initial value, any other id to the base map's value. -/
theorem foldl_update_const {α : Type} {d : ℕ} (v : α) (l : List (MusicItem d))
    (m : ℕ → Option α) (i : ℕ) :
    (l.foldl (fun (m : ℕ → Option α) (it : MusicItem d) =>
      Function.update m it.id (some v)) m) i =
      if i ∈ l.map MusicItem.id then some v else m i := by
  induction l generalizing m with
  | nil => simp
  | cons it rest ih =>
    simp only [List.foldl_cons, ih, List.map_cons, List.mem_cons]
    by_cases hmem : i ∈ rest.map MusicItem.id
    · simp [hmem]
    · by_cases hi : i = it.id
      · subst hi
        simp [hmem, Function.update_same]
      · simp [hmem, hi, Function.update_noteq hi]

end

namespace Claims

open MusicRec Matrix

noncomputable section

/-! ## C10 -/

/-- C10: constructing a `MusicItem` with `features = None` substitutes an
all-ones vector of length `feature_dim` (default `5` when the kwarg is
absent), so the item always carries a numeric feature vector. -/
theorem claim10_none_features_all_ones (id : ℕ) (fd : Option ℕ) :
    (RawItem.make id none fd).features = List.replicate (fd.getD 5) 1 ∧
    (RawItem.make id none fd).features.length = fd.getD 5 ∧
    (∀ v ∈ (RawItem.make id none fd).features, v = 1) ∧
    (RawItem.make id none none).features.length = 5 := by
  refine ⟨rfl, by simp [RawItem.make], ?_, by simp [RawItem.make]⟩
  intro v hv
  exact List.eq_of_mem_replicate (by simpa [RawItem.make] using hv)

/-! ## C8 -/

/-- C8 counterexample: constructing the learner with the non-positive ridge
weight `l2 = -1` succeeds (no configuration error is raised at construction
time), refuting the claim that construction fails for `l2 ≤ 0`. -/
theorem claim8_cex_negative_l2_constructs :
    (mkRecommender (d := 1) (H := 1) [⟨0, fun _ => 1⟩] 1 (-1) .LinUCB (7/10)
      (RNNParams.zero 1 1)).isSome = true := by
  rfl

/-- C8 (amended): `Recommender.__init__` performs no validation of the ridge
weight: construction succeeds for every `l2` (non-positive values included) —
with the `LinUCB` policy for any playlist, and with the `LinUCB+` policy for
every nonempty playlist — initializing `A = l2·I` and `b = 0` for every
playlist item (and, in `LinUCB+` mode, constructing the RNN corrector). -/
theorem claim8_no_l2_validation {d H : ℕ} :
    (∀ (playlist : List (MusicItem d)) (alpha l2 discount : ℝ)
      (rnn0 : RNNParams d H),
      ∃ s : RecState d H,
        mkRecommender playlist alpha l2 .LinUCB discount rnn0 = some s ∧
        s.l2 = l2 ∧
        ∀ it ∈ playlist,
          s._A it.id = some (l2 • (1 : Matrix (Fin d) (Fin d) ℝ)) ∧
          s._b it.id = some (0 : Fin d → ℝ)) ∧
    (∀ (it0 : MusicItem d) (rest : List (MusicItem d))
      (alpha l2 discount : ℝ) (rnn0 : RNNParams d H),
      ∃ s : RecState d H,
        mkRecommender (it0 :: rest) alpha l2 .LinUCBPlus discount rnn0 =
          some s ∧
        s.l2 = l2 ∧ s.rnn = some (RNNState.start rnn0) ∧
        ∀ it ∈ it0 :: rest,
          s._A it.id = some (l2 • (1 : Matrix (Fin d) (Fin d) ℝ)) ∧
          s._b it.id = some (0 : Fin d → ℝ)) := by
  constructor
  · intro playlist alpha l2 discount rnn0
    refine ⟨_, rfl, rfl, fun it hit => ?_⟩
    have hmem : it.id ∈ playlist.map MusicItem.id := List.mem_map_of_mem _ hit
    constructor
    · simpa using (foldl_update_const (l2 • (1 : Matrix (Fin d) (Fin d) ℝ))
        playlist (fun _ => none) it.id).trans (if_pos hmem)
    · simpa using (foldl_update_const (0 : Fin d → ℝ) playlist
        (fun _ => none) it.id).trans (if_pos hmem)
  · intro it0 rest alpha l2 discount rnn0
    refine ⟨_, rfl, rfl, rfl, fun it hit => ?_⟩
    have hmem : it.id ∈ (it0 :: rest).map MusicItem.id :=
      List.mem_map_of_mem _ hit
    constructor
    · simpa using (foldl_update_const (l2 • (1 : Matrix (Fin d) (Fin d) ℝ))
        (it0 :: rest) (fun _ => none) it.id).trans (if_pos hmem)
    · simpa using (foldl_update_const (0 : Fin d → ℝ) (it0 :: rest)
        (fun _ => none) it.id).trans (if_pos hmem)

/-- C8 witness: instantiation of `claim8_no_l2_validation` at `l2 = -1` with
a concrete one-arm playlist, in both `LinUCB` and `LinUCB+` mode. -/
theorem claim8_witness :
    (∃ s : RecState 1 1,
      mkRecommender [(⟨0, fun _ => 1⟩ : MusicItem 1)] 1 (-1) .LinUCB (7/10)
        (RNNParams.zero 1 1) = some s ∧
      s.l2 = -1 ∧
      ∀ it ∈ [(⟨0, fun _ => 1⟩ : MusicItem 1)],
        s._A it.id = some ((-1 : ℝ) • (1 : Matrix (Fin 1) (Fin 1) ℝ)) ∧
        s._b it.id = some (0 : Fin 1 → ℝ)) ∧
    (∃ s : RecState 1 1,
      mkRecommender [(⟨0, fun _ => 1⟩ : MusicItem 1)] 1 (-1) .LinUCBPlus
        (7/10) (RNNParams.zero 1 1) = some s ∧
      s.l2 = -1 ∧ s.rnn = some (RNNState.start (RNNParams.zero 1 1)) ∧
      ∀ it ∈ [(⟨0, fun _ => 1⟩ : MusicItem 1)],
        s._A it.id = some ((-1 : ℝ) • (1 : Matrix (Fin 1) (Fin 1) ℝ)) ∧
        s._b it.id = some (0 : Fin 1 → ℝ)) :=
  ⟨claim8_no_l2_validation.1 [(⟨0, fun _ => 1⟩ : MusicItem 1)] 1 (-1) (7/10)
      (RNNParams.zero 1 1),
    claim8_no_l2_validation.2 ⟨0, fun _ => 1⟩ [] 1 (-1) (7/10)
      (RNNParams.zero 1 1)⟩

/-! ## C2 -/

/-- C2 counterexample: `feedback` on an arm id with no existing statistics
fails (the dict access `self._A[item.id]` raises `KeyError`) instead of
lazily initializing them, refuting step (1) of the claim. -/
theorem claim2_cex_feedback_unknown_arm_fails :
    (mkRecommender (d := 1) (H := 1) [] 1 1 .LinUCB (7/10)
        (RNNParams.zero 1 1)).bind
      (fun s => feedback s ⟨0, fun _ => 1⟩ 1) = none := by
  rfl

/-- C2 (amended): `feedback(item, reward)` performs, in order, (2) in
`LinUCB+` mode the residual `reward − θᵀx` with `θ` solved from the
pre-update `(A, b)` and one residual-model training step on `(x, residual)`;
(3) the rank-1 update `A ← A + x xᵀ`, `b ← b + reward·x`; (4)
`last_selected_id ← item.id` — but there is no ensure step: on an arm id with
no existing statistics, `feedback` raises `KeyError` instead of initializing
them. -/
theorem claim2_feedback_steps {d H : ℕ} :
    (∀ (s : RecState d H) (item : MusicItem d) (r : ℝ) A b,
      s._A item.id = some A → s._b item.id = some b → s.policy = .LinUCB →
      feedback s item r = some
        { s with
          _A := Function.update s._A item.id
            (some (A + vecMulVec item.features item.features))
          _b := Function.update s._b item.id (some (b + r • item.features))
          last_selected_id := some item.id }) ∧
    (∀ (s : RecState d H) (item : MusicItem d) (r : ℝ) A b theta rnnSt,
      s._A item.id = some A → s._b item.id = some b →
      s.policy = .LinUCBPlus → npSolve A b = some theta → s.rnn = some rnnSt →
      feedback s item r = some
        { s with
          _A := Function.update s._A item.id
            (some (A + vecMulVec item.features item.features))
          _b := Function.update s._b item.id (some (b + r • item.features))
          rnn := some (trainPerUpdate rnnSt item.features
            (r - theta ⬝ᵥ item.features) 1e-3)
          last_selected_id := some item.id }) ∧
    (∀ (s : RecState d H) (item : MusicItem d) (r : ℝ),
      s._A item.id = none → feedback s item r = none) := by
  refine ⟨?_, ?_, ?_⟩
  · intro s item r A b hA hb hpol
    simp [feedback, hA, hb, hpol]
  · intro s item r A b theta rnnSt hA hb hpol hsol hrnn
    simp [feedback, hA, hb, hpol, hsol, hrnn]
  · intro s item r hA
    simp [feedback, hA]

/-- C2 witness: instantiation of `claim2_feedback_steps` on a concrete
one-arm LinUCB state with statistics present. -/
theorem claim2_witness :
    ∃ s' : RecState 1 1,
      feedback
        (⟨[⟨0, fun _ => 1⟩], 0, 1, .LinUCB, 7/10,
          (fun i => if i = 0 then some 1 else none),
          (fun i => if i = 0 then some 0 else none), none, none⟩ : RecState 1 1)
        ⟨0, fun _ => 1⟩ 1 = some s' :=
  ⟨_, claim2_feedback_steps.1 _ ⟨0, fun _ => 1⟩ 1 1 0 (by simp) (by simp) rfl⟩

/-! ## C3 -/

/-- Lookup after assignment at the same key. -/
theorem dictGet_dictSet_same {d : ℕ} (k : String) (v : NpzEntry d)
    (l : Snapshot d) : dictGet k (dictSet k v l) = some v := by
  induction l with
  | nil => simp [dictSet, dictGet]
  | cons e rest ih =>
    by_cases h : e.1 = k
    · simp [dictSet, dictGet, h]
    · simp [dictSet, dictGet, h, ih]

/-- Lookup after assignment at a different key. -/
theorem dictGet_dictSet_ne {d : ℕ} {k' k : String} (h : k' ≠ k) (v : NpzEntry d)
    (l : Snapshot d) : dictGet k' (dictSet k v l) = dictGet k' l := by
  induction l with
  | nil =>
    simp only [dictSet, dictGet]
    rw [if_neg (fun e : k = k' => h e.symm)]
  | cons e rest ih =>
    by_cases he : e.1 = k
    · simp only [dictSet, if_pos he, dictGet]
      rw [if_neg (fun e' : k = k' => h e'.symm),
        if_neg (fun e' : e.1 = k' => h (e'.symm.trans he))]
    · simp only [dictSet, if_neg he, dictGet]
      by_cases he' : e.1 = k'
      · rw [if_pos he', if_pos he']
      · rw [if_neg he', if_neg he', ih]

/-- Strings starting with the two distinct key prefixes differ. -/
theorem keyA_ne_keyB (x y : String) : ("A_" ++ x) ≠ ("b_" ++ y) := by
  intro h
  have hd : ('A' :: '_' :: x.data : List Char) = 'b' :: '_' :: y.data :=
    congrArg String.data h
  exact absurd (List.head_eq_of_cons_eq hd) (by decide)

/-- Appending to the `A_` prefix is injective. -/
theorem keyA_inj {x y : String} (h : ("A_" ++ x) = ("A_" ++ y)) : x = y := by
  have hd : ('A' :: '_' :: x.data : List Char) = 'A' :: '_' :: y.data :=
    congrArg String.data h
  exact String.ext (by simpa using hd)

/-- Appending to the `b_` prefix is injective. -/
theorem keyB_inj {x y : String} (h : ("b_" ++ x) = ("b_" ++ y)) : x = y := by
  have hd : ('b' :: '_' :: x.data : List Char) = 'b' :: '_' :: y.data :=
    congrArg String.data h
  exact String.ext (by simpa using hd)

/-- Frame property of the working-set overlay: a key that is neither an
`A_<id>` nor a `b_<id>` key of any processed item keeps its prior binding. -/
theorem overlay_frame {d : ℕ} (s : RecState d 0) (k : String) :
    ∀ (l : List (MusicItem d)) (acc out : Snapshot d),
      overlayWorkingSet s l acc = some out →
      (∀ it ∈ l, k ≠ ("A_" ++ toString it.id) ∧ k ≠ ("b_" ++ toString it.id)) →
      dictGet k out = dictGet k acc := by
  intro l
  induction l with
  | nil =>
    intro acc out hrun _
    simp only [overlayWorkingSet, Option.some.injEq] at hrun
    rw [← hrun]
  | cons it rest ih =>
    intro acc out hrun hk
    rcases hA : s._A it.id with _ | A <;> rcases hb : s._b it.id with _ | b <;>
      simp only [overlayWorkingSet, hA, hb] at hrun
    · exact Option.noConfusion hrun
    · exact Option.noConfusion hrun
    · exact Option.noConfusion hrun
    · have hkeys := hk it (List.mem_cons_self it rest)
      rw [ih _ _ hrun (fun it' hit' => hk it' (List.mem_cons_of_mem it hit')),
        dictGet_dictSet_ne hkeys.2, dictGet_dictSet_ne hkeys.1]

/-- Presence property of the working-set overlay: when the processed items
have pairwise distinct id strings, every processed arm's current statistics
are bound to its `A_<id>` / `b_<id>` keys in the result. -/
theorem overlay_present {d : ℕ} (s : RecState d 0) :
    ∀ (l : List (MusicItem d)) (acc out : Snapshot d),
      (l.map (fun it => toString it.id)).Nodup →
      overlayWorkingSet s l acc = some out →
      ∀ it ∈ l, ∃ A b, s._A it.id = some A ∧ s._b it.id = some b ∧
        dictGet ("A_" ++ toString it.id) out = some (.mat A) ∧
        dictGet ("b_" ++ toString it.id) out = some (.vec b) := by
  intro l
  induction l with
  | nil => intro acc out _ _ it hit; exact absurd hit (List.not_mem_nil it)
  | cons it0 rest ih =>
    intro acc out hnd hrun it hit
    rcases hA : s._A it0.id with _ | A <;> rcases hb : s._b it0.id with _ | b <;>
      simp only [overlayWorkingSet, hA, hb] at hrun
    · exact Option.noConfusion hrun
    · exact Option.noConfusion hrun
    · exact Option.noConfusion hrun
    · have hnd' : (toString it0.id ∉ rest.map (fun x => toString x.id)) ∧
          (rest.map (fun x => toString x.id)).Nodup :=
        List.nodup_cons.mp (by simpa using hnd)
      have hstr : ∀ it' ∈ rest, toString it0.id ≠ toString it'.id := by
        intro it' hit' he
        have hm : toString it'.id ∈ rest.map (fun x => toString x.id) :=
          List.mem_map_of_mem (fun x => toString x.id) hit'
        rw [← he] at hm
        exact hnd'.1 hm
      rcases List.mem_cons.mp hit with h0 | hrest
      · subst h0
        refine ⟨A, b, hA, hb, ?_, ?_⟩
        · rw [overlay_frame s _ rest _ out hrun
            (fun it' hit' => ⟨fun h => hstr it' hit' (keyA_inj h), keyA_ne_keyB _ _⟩)]
          rw [dictGet_dictSet_ne (keyA_ne_keyB _ _), dictGet_dictSet_same]
        · rw [overlay_frame s _ rest _ out hrun
            (fun it' hit' => ⟨fun h => keyA_ne_keyB _ _ h.symm,
              fun h => hstr it' hit' (keyB_inj h)⟩)]
          rw [dictGet_dictSet_same]
      · exact ih _ _ hnd'.2 hrun it hrest

/-- C3: merge-on-save.  (1) For every save over a readable existing file,
entries outside the working set are preserved verbatim and every working-set
arm's `A_<id>`/`b_<id>` entries carry its current statistics; (2) when the
existing file is absent or unreadable the result binds only working-set keys
(the save degrades to writing the working set instead of aborting); (3) in
particular, saving a working set of 2 arms over a file holding 5 other arms
yields a file in which all 7 arms' statistics are present. -/
theorem claim3_merge_on_save :
    (∀ {d : ℕ} (s : RecState d 0) (existing : Option (Snapshot d)) out,
      save_params s existing = some out →
      ((s.playlist.map (fun it => toString it.id)).Nodup →
        ∀ it ∈ s.playlist, ∃ A b, s._A it.id = some A ∧ s._b it.id = some b ∧
          dictGet ("A_" ++ toString it.id) out = some (.mat A) ∧
          dictGet ("b_" ++ toString it.id) out = some (.vec b)) ∧
      (∀ k, (∀ it ∈ s.playlist,
          k ≠ ("A_" ++ toString it.id) ∧ k ≠ ("b_" ++ toString it.id)) →
        dictGet k out = dictGet k (existing.getD []))) ∧
    (∀ {d : ℕ} (s : RecState d 0) out, save_params s none = some out →
      ∀ k, (∀ it ∈ s.playlist,
          k ≠ ("A_" ++ toString it.id) ∧ k ≠ ("b_" ++ toString it.id)) →
        dictGet k out = none) ∧
    (∀ i ∈ [1, 2, 10, 11, 12, 13, 14], ∃ out,
      save_params twoArmState (some fiveArmFile) = some out ∧
      (dictGet ("A_" ++ toString i) out).isSome = true ∧
      (dictGet ("b_" ++ toString i) out).isSome = true) := by
  have main : ∀ {d : ℕ} (s : RecState d 0) (existing : Option (Snapshot d)) out,
      save_params s existing = some out →
      ((s.playlist.map (fun it => toString it.id)).Nodup →
        ∀ it ∈ s.playlist, ∃ A b, s._A it.id = some A ∧ s._b it.id = some b ∧
          dictGet ("A_" ++ toString it.id) out = some (.mat A) ∧
          dictGet ("b_" ++ toString it.id) out = some (.vec b)) ∧
      (∀ k, (∀ it ∈ s.playlist,
          k ≠ ("A_" ++ toString it.id) ∧ k ≠ ("b_" ++ toString it.id)) →
        dictGet k out = dictGet k (existing.getD [])) := by
    intro d s existing out hsave
    have hrun : overlayWorkingSet s s.playlist (existing.getD []) = some out := by
      cases existing <;> exact hsave
    exact ⟨fun hnd => overlay_present s s.playlist _ out hnd hrun,
      fun k hk => overlay_frame s k s.playlist _ out hrun hk⟩
  refine ⟨main, ?_, ?_⟩
  · intro d s out hsave k hk
    have := (main s none out hsave).2 k hk
    simpa [dictGet] using this
  · intro i hi
    refine ⟨_, rfl, ?_⟩
    fin_cases hi <;> exact ⟨by rfl, by rfl⟩

/-- C3 witness: instantiation of `claim3_merge_on_save` on the concrete
two-arms-over-five-arms scenario. -/
theorem claim3_witness :
    ∃ out, save_params twoArmState (some fiveArmFile) = some out ∧
      (∃ A b, twoArmState._A 1 = some A ∧ twoArmState._b 1 = some b ∧
        dictGet ("A_" ++ toString (1 : ℕ)) out = some (.mat A) ∧
        dictGet ("b_" ++ toString (1 : ℕ)) out = some (.vec b)) ∧
      dictGet ("A_10") out = dictGet ("A_10") fiveArmFile := by
  obtain ⟨hpres, hframe⟩ :=
    claim3_merge_on_save.1 twoArmState (some fiveArmFile) _ rfl
  refine ⟨_, rfl, ?_, ?_⟩
  · simpa using hpres (by decide) ⟨1, fun _ => 1⟩ (by simp [twoArmState])
  · simpa using hframe ("A_10")
      (by intro it hit; fin_cases hit <;> exact ⟨by decide, by decide⟩)

/-! ## C4 -/

/-- Stable insertion produces a permutation of consing. -/
theorem insertDesc_perm {d : ℕ} (p : ℝ × MusicItem d) :
    ∀ l : List (ℝ × MusicItem d), (insertDesc p l).Perm (p :: l) := by
  intro l
  induction l with
  | nil => exact List.Perm.refl _
  | cons q rest ih =>
    by_cases h : q.1 > p.1
    · simp only [insertDesc, if_pos h]
      exact (ih.cons q).trans (List.Perm.swap p q rest)
    · simp only [insertDesc, if_neg h]
      exact List.Perm.refl _

/-- The stable descending sort permutes its input. -/
theorem sortDesc_perm {d : ℕ} :
    ∀ l : List (ℝ × MusicItem d), (sortDesc l).Perm l := by
  intro l
  induction l with
  | nil => exact List.Perm.refl _
  | cons p rest ih => exact (insertDesc_perm p (sortDesc rest)).trans (ih.cons p)

/-- Stable insertion preserves descending sortedness. -/
theorem insertDesc_sorted {d : ℕ} (p : ℝ × MusicItem d) :
    ∀ l : List (ℝ × MusicItem d),
      l.Sorted (fun a b : ℝ × MusicItem d => b.1 ≤ a.1) →
      (insertDesc p l).Sorted (fun a b : ℝ × MusicItem d => b.1 ≤ a.1) := by
  intro l
  induction l with
  | nil => intro _; simp [insertDesc]
  | cons q rest ih =>
    intro h
    rw [List.sorted_cons] at h
    by_cases hq : q.1 > p.1
    · simp only [insertDesc, if_pos hq]
      rw [List.sorted_cons]
      refine ⟨fun x hx => ?_, ih h.2⟩
      rcases List.mem_cons.mp ((insertDesc_perm p rest).mem_iff.mp hx) with hx' | hx'
      · rw [hx']
        exact le_of_lt hq
      · exact h.1 x hx'
    · simp only [insertDesc, if_neg hq]
      rw [List.sorted_cons]
      exact ⟨fun x hx => by
        rcases List.mem_cons.mp hx with hx | hx
        · exact hx ▸ not_lt.mp hq
        · exact le_trans (h.1 x hx) (not_lt.mp hq), List.sorted_cons.mpr h⟩

/-- The sorted scored list is sorted by descending score. -/
theorem sortDesc_sorted {d : ℕ} :
    ∀ l : List (ℝ × MusicItem d),
      (sortDesc l).Sorted (fun a b : ℝ × MusicItem d => b.1 ≤ a.1) := by
  intro l
  induction l with
  | nil => simp [sortDesc]
  | cons p rest ih => exact insertDesc_sorted p (sortDesc rest) ih

/-- Stability of the insertion step: restricted to any fixed score value `c`,
inserting keeps the elements of that score in their original relative order
(the walked-past elements all have score strictly above `p`'s). -/
theorem insertDesc_filter {d : ℕ} (c : ℝ) (p : ℝ × MusicItem d) :
    ∀ l : List (ℝ × MusicItem d),
      (insertDesc p l).filter (fun x => decide (x.1 = c)) =
        (p :: l).filter (fun x => decide (x.1 = c)) := by
  intro l
  induction l with
  | nil => rfl
  | cons q rest ih =>
    by_cases hq : q.1 > p.1
    · simp only [insertDesc, if_pos hq]
      by_cases hqc : q.1 = c
      · have hpc : ¬p.1 = c := fun hpc => absurd (hpc.trans hqc.symm) (ne_of_gt hq).symm
        simp [List.filter, hqc, hpc, ih]
      · simp [List.filter, hqc, ih]
    · simp only [insertDesc, if_neg hq]

/-- Stability of the sort: for every score value `c`, the sorted list's
elements of score `c` appear in exactly their original order. -/
theorem sortDesc_filter {d : ℕ} (c : ℝ) :
    ∀ l : List (ℝ × MusicItem d),
      (sortDesc l).filter (fun x => decide (x.1 = c)) =
        l.filter (fun x => decide (x.1 = c)) := by
  intro l
  induction l with
  | nil => rfl
  | cons p rest ih =>
    rw [sortDesc, insertDesc_filter]
    simp only [List.filter]
    rw [ih]

/-- Scoring the playlist keeps the items in playlist order. -/
theorem scoreList_map_snd {d H : ℕ} (s : RecState d H) :
    ∀ (l : List (MusicItem d)) (sc : List (ℝ × MusicItem d)),
      scoreList s l = some sc → sc.map Prod.snd = l := by
  intro l
  induction l with
  | nil =>
    intro sc h
    simp only [scoreList, Option.some.injEq] at h
    rw [← h]
    rfl
  | cons it rest ih =>
    intro sc h
    rcases hp : ptaOf s it with _ | v
    · rw [scoreList, hp] at h
      exact Option.noConfusion h
    · rcases ht : scoreList s rest with _ | tail
      · rw [scoreList, hp, ht] at h
        exact Option.noConfusion h
      · rw [scoreList, hp, ht] at h
        have h' : ((if s.last_selected_id = some it.id then v * s.discount else v,
            it) :: tail) = sc := Option.some.inj h
        rw [← h']
        simpa using ih tail ht

/-- The scored list has one entry per playlist item. -/
theorem scoreList_length {d H : ℕ} (s : RecState d H)
    (l : List (MusicItem d)) (sc : List (ℝ × MusicItem d))
    (h : scoreList s l = some sc) : sc.length = l.length := by
  rw [← scoreList_map_snd s l sc h, List.length_map]

/-- C4 (amended): `selection(n)` sorts the scored candidates by descending
combined score, stably (ties keep original candidate order), and returns the
items of the Python slice `scores[:n]`: for `0 ≤ n` the first
`min n (number of candidates)` items — in particular all of them when
`n ≥ number of candidates`, and `[]` for `n = 0` — but for `n < 0` the
Python slice keeps all but the last `|n|` sorted items (`selection(-1)` on
two candidates returns one item, not the empty list). -/
theorem claim4_selection_sort_slice {d H : ℕ} (s : RecState d H)
    (sc : List (ℝ × MusicItem d)) (hsc : scoreList s s.playlist = some sc) :
    ((sortDesc sc).Sorted (fun a b : ℝ × MusicItem d => b.1 ≤ a.1)) ∧
    ((sortDesc sc).Perm sc) ∧
    (∀ c : ℝ, (sortDesc sc).filter (fun x => decide (x.1 = c)) =
      sc.filter (fun x => decide (x.1 = c))) ∧
    (sc.map Prod.snd = s.playlist) ∧
    (∀ n : ℤ, 0 ≤ n → ∃ res, selection s n = some res ∧
      res.length = min n.toNat s.playlist.length) ∧
    (selection s 0 = some []) ∧
    (∀ n : ℤ, (s.playlist.length : ℤ) ≤ n →
      ∃ res, selection s n = some res ∧ res.Perm s.playlist) ∧
    (∀ n : ℤ, n < 0 → selection s n =
      some (((sortDesc sc).take (sc.length - (-n).toNat)).map Prod.snd)) := by
  have hlen : (sortDesc sc).length = sc.length := (sortDesc_perm sc).length_eq
  have hmap := scoreList_map_snd s s.playlist sc hsc
  refine ⟨sortDesc_sorted sc, sortDesc_perm sc, fun c => sortDesc_filter c sc,
    hmap, ?_, ?_, ?_, ?_⟩
  · intro n hn
    refine ⟨_, by rw [selection, hsc]; rfl, ?_⟩
    simp only [List.length_map, pySlice, if_pos hn, List.length_take, hlen]
    rw [scoreList_length s _ sc hsc]
  · rw [selection, hsc]
    show some ((pySlice (sortDesc sc) 0).map Prod.snd) = some []
    rw [pySlice]
    simp
  · intro n hn
    have h0n : (0 : ℤ) ≤ n := le_trans (Int.ofNat_nonneg _) hn
    have htake : pySlice (sortDesc sc) n = sortDesc sc := by
      rw [pySlice, if_pos h0n]
      refine List.take_of_length_le ?_
      rw [hlen, scoreList_length s _ sc hsc]
      exact (Int.le_toNat h0n).mpr hn
    refine ⟨(sortDesc sc).map Prod.snd, ?_, ?_⟩
    · rw [selection, hsc]
      show some ((pySlice (sortDesc sc) n).map Prod.snd) = _
      rw [htake]
    · rw [← hmap]
      exact (sortDesc_perm sc).map Prod.snd
  · intro n hn
    rw [selection, hsc]
    show some ((pySlice (sortDesc sc) n).map Prod.snd) = _
    rw [pySlice, if_neg (not_le.mpr hn), hlen]

/-- C4 counterexample: with two candidates, `selection(-1)` returns one item
(Python's `scores[:-1]` drops only the last element), not the empty list,
refuting the claim that every `n ≤ 0` yields the empty list. -/
theorem claim4_cex_negative_n_not_empty :
    selection twoArmSel (-1) = some [⟨0, fun _ => 1⟩] ∧
    ([(⟨0, fun _ => 1⟩ : MusicItem 1)] : List (MusicItem 1)) ≠ [] := by
  constructor
  · have h1 : ptaOf twoArmSel ⟨0, fun _ => 1⟩ = some 0 := by
      simp [ptaOf, twoArmSel, npSolve, npInv, Matrix.det_one, inv_one]
    have h2 : ptaOf twoArmSel ⟨1, fun _ => 1⟩ = some 0 := by
      simp [ptaOf, twoArmSel, npSolve, npInv, Matrix.det_one, inv_one]
    have hsc : scoreList twoArmSel twoArmSel.playlist =
        some [(0, ⟨0, fun _ => 1⟩), (0, ⟨1, fun _ => 1⟩)] := by
      show scoreList twoArmSel [⟨0, fun _ => 1⟩, ⟨1, fun _ => 1⟩] = _
      rw [scoreList, h1]
      rw [scoreList, h2]
      simp [scoreList, twoArmSel]
    rw [selection, hsc]
    show some ((pySlice (sortDesc [((0 : ℝ), (⟨0, fun _ => 1⟩ : MusicItem 1)),
      (0, ⟨1, fun _ => 1⟩)]) (-1)).map Prod.snd) = _
    rw [show sortDesc [((0 : ℝ), (⟨0, fun _ => 1⟩ : MusicItem 1)),
        (0, ⟨1, fun _ => 1⟩)] =
        [(0, ⟨0, fun _ => 1⟩), (0, ⟨1, fun _ => 1⟩)] by
      simp [sortDesc, insertDesc]]
    rw [pySlice, if_neg (by norm_num)]
    rfl
  · simp

/-- C4 witness: instantiation of `claim4_selection_sort_slice` on the
concrete two-arm state. -/
theorem claim4_witness :
    ∃ sc, scoreList twoArmSel twoArmSel.playlist = some sc ∧
      (sortDesc sc).Perm sc ∧ selection twoArmSel 0 = some [] := by
  have h1 : ptaOf twoArmSel ⟨0, fun _ => 1⟩ = some 0 := by
    simp [ptaOf, twoArmSel, npSolve, npInv, Matrix.det_one, inv_one]
  have h2 : ptaOf twoArmSel ⟨1, fun _ => 1⟩ = some 0 := by
    simp [ptaOf, twoArmSel, npSolve, npInv, Matrix.det_one, inv_one]
  have hsc : scoreList twoArmSel twoArmSel.playlist =
      some [(0, ⟨0, fun _ => 1⟩), (0, ⟨1, fun _ => 1⟩)] := by
    show scoreList twoArmSel [⟨0, fun _ => 1⟩, ⟨1, fun _ => 1⟩] = _
    rw [scoreList, h1]
    rw [scoreList, h2]
    simp [scoreList, twoArmSel]
  obtain ⟨hsorted, hperm, hfil, hmap, hpos, hzero, hall, hneg⟩ :=
    claim4_selection_sort_slice twoArmSel _ hsc
  exact ⟨_, hsc, hperm, hzero⟩

/-! ## C7 -/

/-- Multiplying the outer product `x xᵀ` by a vector. -/
theorem vecMulVec_mulVec_self {d : ℕ} (x y : Fin d → ℝ) :
    vecMulVec x x *ᵥ y = (x ⬝ᵥ y) • x := by
  ext i
  simp only [Matrix.mulVec, Matrix.dotProduct, vecMulVec_apply, Pi.smul_apply,
    smul_eq_mul]
  rw [Finset.sum_congr rfl (fun j _ => mul_assoc (x i) (x j) (y j)),
    ← Finset.mul_sum]
  ring

/-- The rank-1 outer product `x xᵀ` of a real vector is positive
semidefinite. -/
theorem posSemidef_vecMulVec_self {d : ℕ} (x : Fin d → ℝ) :
    (vecMulVec x x).PosSemidef := by
  constructor
  · ext i j
    simp [Matrix.conjTranspose_apply, vecMulVec_apply, mul_comm]
  · intro y
    rw [vecMulVec_mulVec_self, dotProduct_smul]
    simp only [star_trivial, smul_eq_mul]
    rw [dotProduct_comm]
    exact mul_self_nonneg _

/-- The ridge initialization `l2·I` is positive definite for `l2 > 0`. -/
theorem posDef_smul_one {d : ℕ} {l2 : ℝ} (h : 0 < l2) :
    (l2 • (1 : Matrix (Fin d) (Fin d) ℝ)).PosDef := by
  rw [Matrix.smul_one_eq_diagonal]
  exact Matrix.PosDef.diagonal (fun _ => h)

/-- A successful `feedback` call leaves every arm's `A` matrix untouched
except the fed arm's, which receives exactly the rank-1 update `A + x xᵀ`. -/
theorem feedback_A_update {d H : ℕ} (s : RecState d H) (item : MusicItem d)
    (r : ℝ) (s' : RecState d H) (h : feedback s item r = some s') :
    ∃ A, s._A item.id = some A ∧
      s'._A = Function.update s._A item.id
        (some (A + vecMulVec item.features item.features)) := by
  rcases hA : s._A item.id with _ | A <;> rcases hb : s._b item.id with _ | b <;>
    simp only [feedback, hA, hb] at h
  · exact Option.noConfusion h
  · exact Option.noConfusion h
  · exact Option.noConfusion h
  · refine ⟨A, rfl, ?_⟩
    rcases hpol : s.policy with _ | _ <;> simp only [hpol] at h
    · rw [← Option.some.inj h]
    · rcases hsol : npSolve A b with _ | theta <;>
        rcases hrnn : s.rnn with _ | rnnSt <;> simp only [hsol, hrnn] at h
      · exact Option.noConfusion h
      · exact Option.noConfusion h
      · exact Option.noConfusion h
      · rw [← Option.some.inj h]

/-- One successful `feedback` call preserves positive definiteness of every
arm's `A` matrix. -/
theorem feedback_posDef_step {d H : ℕ} (s : RecState d H) (item : MusicItem d)
    (r : ℝ) (s' : RecState d H) (h : feedback s item r = some s')
    (hinv : ∀ i A, s._A i = some A → A.PosDef) :
    ∀ i A, s'._A i = some A → A.PosDef := by
  obtain ⟨A0, hA0, hupd⟩ := feedback_A_update s item r s' h
  intro i A hA
  rw [hupd] at hA
  by_cases hi : i = item.id
  · subst hi
    rw [Function.update_same] at hA
    rw [← Option.some.inj hA]
    exact (hinv _ A0 hA0).add_posSemidef (posSemidef_vecMulVec_self _)
  · rw [Function.update_noteq hi] at hA
    exact hinv i A hA

/-- The constructor establishes the positive-definiteness invariant when
`l2 > 0`. -/
theorem mkRecommender_posDef {d H : ℕ} (playlist : List (MusicItem d))
    (alpha l2 : ℝ) (policy : Policy) (discount : ℝ) (rnn0 : RNNParams d H)
    (s0 : RecState d H) (hl2 : 0 < l2)
    (h : mkRecommender playlist alpha l2 policy discount rnn0 = some s0) :
    ∀ i A, s0._A i = some A → A.PosDef := by
  have hA0 : ∀ i, s0._A i =
      if i ∈ playlist.map MusicItem.id
      then some (l2 • (1 : Matrix (Fin d) (Fin d) ℝ)) else none := by
    have : ∀ t : RecState d H,
        mkRecommender playlist alpha l2 policy discount rnn0 = some t →
        t._A = playlist.foldl (fun (m : ℕ → Option (Matrix (Fin d) (Fin d) ℝ))
          (it : MusicItem d) => Function.update m it.id
            (some (l2 • (1 : Matrix (Fin d) (Fin d) ℝ)))) (fun _ => none) := by
      intro t ht
      rcases policy with _ | _
      · rw [← Option.some.inj ht]
      · rcases playlist with _ | ⟨it0, rest⟩
        · exact Option.noConfusion ht
        · rw [← Option.some.inj ht]
    intro i
    rw [this s0 h, foldl_update_const]
  intro i A hA
  rw [hA0 i] at hA
  by_cases hi : i ∈ playlist.map MusicItem.id
  · rw [if_pos hi] at hA
    rw [← Option.some.inj hA]
    exact posDef_smul_one hl2
  · rw [if_neg hi] at hA
    exact Option.noConfusion hA

/-- C7: with ridge weight `l2 > 0`, after any finite sequence of successful
`feedback` calls every arm's matrix `A` is symmetric positive definite — in
particular its determinant is a unit, so the linear solves in scoring and
feedback succeed (`npSolve` returns a value). -/
theorem claim7_posDef_invariant {d H : ℕ} (playlist : List (MusicItem d))
    (alpha l2 : ℝ) (policy : Policy) (discount : ℝ) (rnn0 : RNNParams d H)
    (s0 : RecState d H) (hl2 : 0 < l2)
    (h0 : mkRecommender playlist alpha l2 policy discount rnn0 = some s0) :
    ∀ (calls : List (MusicItem d × ℝ)) (s' : RecState d H),
      runFeedback s0 calls = some s' →
      ∀ i A, s'._A i = some A →
        A.PosDef ∧ Aᵀ = A ∧ IsUnit A.det ∧
        ∀ b, npSolve A b = some (A⁻¹ *ᵥ b) := by
  have main : ∀ (calls : List (MusicItem d × ℝ)) (s : RecState d H),
      (∀ i A, s._A i = some A → A.PosDef) →
      ∀ s', runFeedback s calls = some s' →
      ∀ i A, s'._A i = some A → A.PosDef := by
    intro calls
    induction calls with
    | nil =>
      intro s hs s' h'
      simp only [runFeedback] at h'
      rw [← Option.some.inj h']
      exact hs
    | cons c rest ih =>
      intro s hs s' h'
      rcases hc : feedback s c.1 c.2 with _ | s1
      · simp only [runFeedback, hc] at h'
        exact Option.noConfusion h'
      · simp only [runFeedback, hc, Option.some_bind] at h'
        exact ih s1 (feedback_posDef_step s c.1 c.2 s1 hc hs) s' h'
  intro calls s' h' i A hA
  have hpd : A.PosDef :=
    main calls s0 (mkRecommender_posDef playlist alpha l2 policy discount
      rnn0 s0 hl2 h0) s' h' i A hA
  have hdet : IsUnit A.det := hpd.det_pos.ne'.isUnit
  exact ⟨hpd, by simpa [Matrix.IsHermitian] using hpd.isHermitian, hdet,
    fun b => by rw [npSolve, if_pos hdet]⟩

/-- C7 witness: instantiation of `claim7_posDef_invariant` on a concrete
one-arm learner receiving one feedback call. -/
theorem claim7_witness :
    ∃ (s0 s' : RecState 1 0) (A : Matrix (Fin 1) (Fin 1) ℝ),
      mkRecommender [(⟨0, fun _ => 1⟩ : MusicItem 1)] 1 1 .LinUCB (7/10)
        (RNNParams.zero 1 0) = some s0 ∧
      runFeedback s0 [(⟨0, fun _ => 1⟩, 1)] = some s' ∧
      s'._A 0 = some A ∧ A.PosDef ∧ Aᵀ = A ∧ IsUnit A.det := by
  refine ⟨_, _, _, rfl, rfl, rfl, ?_⟩
  have h := claim7_posDef_invariant [(⟨0, fun _ => 1⟩ : MusicItem 1)] 1 1
    .LinUCB (7/10) (RNNParams.zero 1 0) _ one_pos rfl
    [(⟨0, fun _ => 1⟩, 1)] _ rfl 0 _ rfl
  exact ⟨h.1, h.2.1, h.2.2.1⟩

/-! ## C6 -/

/-- Sherman–Morrison-style shrinkage: for positive definite `A` and `x ≠ 0`,
the quadratic form `xᵀ (A + x xᵀ)⁻¹ x` is nonnegative and strictly smaller
than `xᵀ A⁻¹ x` (it equals `q/(1+q)` for `q = xᵀ A⁻¹ x > 0`). -/
theorem quadForm_inv_rank1_lt {d : ℕ} {A : Matrix (Fin d) (Fin d) ℝ}
    {x : Fin d → ℝ} (hA : A.PosDef) (hx : x ≠ 0) :
    0 ≤ x ⬝ᵥ ((A + vecMulVec x x)⁻¹ *ᵥ x) ∧
    x ⬝ᵥ ((A + vecMulVec x x)⁻¹ *ᵥ x) < x ⬝ᵥ (A⁻¹ *ᵥ x) := by
  have hdetA : IsUnit A.det := hA.det_pos.ne'.isUnit
  have hB : (A + vecMulVec x x).PosDef :=
    hA.add_posSemidef (posSemidef_vecMulVec_self x)
  have hdetB : IsUnit (A + vecMulVec x x).det := hB.det_pos.ne'.isUnit
  have hAz : A *ᵥ (A⁻¹ *ᵥ x) = x := by
    rw [mulVec_mulVec, Matrix.mul_nonsing_inv A hdetA, one_mulVec]
  have hzne : A⁻¹ *ᵥ x ≠ 0 := by
    intro h0
    exact hx (by rw [← hAz, h0, mulVec_zero])
  have hq : 0 < x ⬝ᵥ (A⁻¹ *ᵥ x) := by
    have h2 := hA.2 (A⁻¹ *ᵥ x) hzne
    have hsz : star (A⁻¹ *ᵥ x) = A⁻¹ *ᵥ x := by funext i; simp
    rw [hsz, hAz, dotProduct_comm] at h2
    exact h2
  have hBy : (A + vecMulVec x x) *ᵥ ((A + vecMulVec x x)⁻¹ *ᵥ x) = x := by
    rw [mulVec_mulVec, Matrix.mul_nonsing_inv _ hdetB, one_mulVec]
  rw [Matrix.add_mulVec, vecMulVec_mulVec_self] at hBy
  have hAy : A *ᵥ ((A + vecMulVec x x)⁻¹ *ᵥ x) =
      (1 - x ⬝ᵥ ((A + vecMulVec x x)⁻¹ *ᵥ x)) • x := by
    rw [sub_smul, one_smul]
    have := congrArg
      (fun v => v - (x ⬝ᵥ ((A + vecMulVec x x)⁻¹ *ᵥ x)) • x) hBy
    simpa [add_sub_cancel_right] using this
  have hyz : (A + vecMulVec x x)⁻¹ *ᵥ x =
      (1 - x ⬝ᵥ ((A + vecMulVec x x)⁻¹ *ᵥ x)) • (A⁻¹ *ᵥ x) := by
    have h1 : A⁻¹ *ᵥ (A *ᵥ ((A + vecMulVec x x)⁻¹ *ᵥ x)) =
        (A + vecMulVec x x)⁻¹ *ᵥ x := by
      rw [mulVec_mulVec, Matrix.nonsing_inv_mul A hdetA, one_mulVec]
    conv_lhs => rw [← h1, hAy]
    rw [mulVec_smul]
  have hc : x ⬝ᵥ ((A + vecMulVec x x)⁻¹ *ᵥ x) =
      (1 - x ⬝ᵥ ((A + vecMulVec x x)⁻¹ *ᵥ x)) * (x ⬝ᵥ (A⁻¹ *ᵥ x)) := by
    conv_lhs => rw [hyz]
    rw [dotProduct_smul, smul_eq_mul]
  generalize hcg : x ⬝ᵥ ((A + vecMulVec x x)⁻¹ *ᵥ x) = c at hc ⊢
  generalize hqg : x ⬝ᵥ (A⁻¹ *ᵥ x) = q at hc hq ⊢
  have h1q : (0 : ℝ) < 1 + q := by linarith
  have hkey : c * (1 + q) = q := by linear_combination hc
  have hcpos : 0 < c := by nlinarith [hkey, hq, h1q]
  exact ⟨le_of_lt hcpos, by nlinarith [hkey, hcpos, hq]⟩

/-- C6 counterexample: with the configured `alpha = 0`, a feedback call does
not strictly decrease the exploration bonus `alpha·sqrt(xᵀA⁻¹x)` (it stays
`0`), refuting the claim as stated for every arm and vector. -/
theorem claim6_cex_alpha_zero :
    ∃ s', feedback oneArmAlpha0 ⟨0, fun _ => 1⟩ 1 = some s' ∧
      s'._A 0 = some ((1 : Matrix (Fin 1) (Fin 1) ℝ) +
        vecMulVec (fun _ => 1) (fun _ => 1)) ∧
      ¬(expBonus oneArmAlpha0.alpha
          ((1 : Matrix (Fin 1) (Fin 1) ℝ) + vecMulVec (fun _ => 1) (fun _ => 1))
          (fun _ => 1) <
        expBonus oneArmAlpha0.alpha (1 : Matrix (Fin 1) (Fin 1) ℝ)
          (fun _ => 1)) := by
  refine ⟨_, rfl, rfl, ?_⟩
  show ¬((0 : ℝ) * _ < 0 * _)
  rw [zero_mul, zero_mul]
  exact lt_irrefl 0

/-- C6 (amended): a successful feedback call on an arm whose matrix `A` is
positive definite, with feature vector `x ≠ 0` and configured `alpha > 0`,
replaces `A` by `A + x xᵀ` and strictly decreases the exploration bonus
`alpha·sqrt(xᵀA⁻¹x)` for that same `x`.  (The claim as stated fails for
`alpha = 0` or `x = 0`, where the bonus is unchanged.) -/
theorem claim6_bonus_shrinks {d H : ℕ} (s : RecState d H) (item : MusicItem d)
    (r : ℝ) (s' : RecState d H) (A : Matrix (Fin d) (Fin d) ℝ)
    (hA : s._A item.id = some A) (hpd : A.PosDef) (hx : item.features ≠ 0)
    (ha : 0 < s.alpha) (hfb : feedback s item r = some s') :
    s'._A item.id = some (A + vecMulVec item.features item.features) ∧
    expBonus s.alpha (A + vecMulVec item.features item.features) item.features <
      expBonus s.alpha A item.features := by
  obtain ⟨A0, hA0, hupd⟩ := feedback_A_update s item r s' hfb
  have hAA0 : A0 = A := Option.some.inj (hA0.symm.trans hA)
  subst hAA0
  obtain ⟨hge, hlt⟩ := quadForm_inv_rank1_lt hpd hx
  refine ⟨by rw [hupd, Function.update_same], ?_⟩
  exact mul_lt_mul_of_pos_left (Real.sqrt_lt_sqrt hge hlt) ha

/-- C6 witness: instantiation of `claim6_bonus_shrinks` on a concrete
one-arm learner with `alpha = 1`. -/
theorem claim6_witness :
    ∃ s', feedback oneArmAlpha1 ⟨0, fun _ => 1⟩ 1 = some s' ∧
      s'._A 0 = some ((1 : Matrix (Fin 1) (Fin 1) ℝ) +
        vecMulVec (fun _ => 1) (fun _ => 1)) ∧
      expBonus oneArmAlpha1.alpha
          ((1 : Matrix (Fin 1) (Fin 1) ℝ) + vecMulVec (fun _ => 1) (fun _ => 1))
          (fun _ => 1) <
        expBonus oneArmAlpha1.alpha (1 : Matrix (Fin 1) (Fin 1) ℝ)
          (fun _ => 1) := by
  have h := claim6_bonus_shrinks oneArmAlpha1 ⟨0, fun _ => 1⟩ 1 _
    (1 : Matrix (Fin 1) (Fin 1) ℝ) (by simp [oneArmAlpha1]) Matrix.PosDef.one
    (by
      intro h0
      exact absurd (congrFun h0 0) (by norm_num))
    (by norm_num [oneArmAlpha1]) rfl
  exact ⟨_, rfl, h.1, h.2⟩

/-! ## C5 -/

/-- Characterization of `np.linalg.solve` by a solution certificate. -/
theorem npSolve_eq {d : ℕ} {A : Matrix (Fin d) (Fin d) ℝ} {b v : Fin d → ℝ}
    (hA : IsUnit A.det) (hv : A *ᵥ v = b) : npSolve A b = some v := by
  rw [npSolve, if_pos hA, ← hv, mulVec_mulVec, Matrix.nonsing_inv_mul A hA,
    one_mulVec]

/-- Success of `np.linalg.inv` on invertible input. -/
theorem npInv_isUnit {d : ℕ} {A : Matrix (Fin d) (Fin d) ℝ}
    (hA : IsUnit A.det) : npInv A = some A⁻¹ := by
  rw [npInv, if_pos hA]

/-- Closed form of the loop body of `selection` in `LinUCB` mode. -/
theorem ptaOf_LinUCB {d H : ℕ} (s : RecState d H) (it : MusicItem d)
    (A : Matrix (Fin d) (Fin d) ℝ) (b theta : Fin d → ℝ)
    (hA : s._A it.id = some A) (hb : s._b it.id = some b)
    (hpol : s.policy = .LinUCB) (hdet : IsUnit A.det)
    (hsol : A *ᵥ theta = b) :
    ptaOf s it = some (theta ⬝ᵥ it.features +
      s.alpha * Real.sqrt (it.features ⬝ᵥ (A⁻¹ *ᵥ it.features))) := by
  simp only [ptaOf, hA, hb, npSolve_eq hdet hsol, npInv_isUnit hdet, hpol,
    Option.bind_eq_bind, Option.some_bind]
  rfl

/-- C5 (amended): during selection the last-selected arm's score is
multiplied by the configured discount, and given two arms with equal and
*positive* undiscounted scores and a discount strictly inside `(0, 1)`, the
arm that is not the last-selected one ranks strictly first.  (As stated the
claim fails when the equal scores are not positive or when `discount = 1`.) -/
theorem claim5_repeat_discount {d H : ℕ} (s : RecState d H) :
    (∀ (it : MusicItem d) (p : ℝ) (rest : List (MusicItem d)) sc,
      ptaOf s it = some p → s.last_selected_id = some it.id →
      scoreList s (it :: rest) = some sc →
      ∃ tail, scoreList s rest = some tail ∧
        sc = (p * s.discount, it) :: tail) ∧
    (∀ (u v : MusicItem d) (c : ℝ),
      (s.playlist = [u, v] ∨ s.playlist = [v, u]) →
      s.last_selected_id = some u.id → v.id ≠ u.id →
      ptaOf s u = some c → ptaOf s v = some c →
      0 < c → 0 < s.discount → s.discount < 1 →
      selection s 2 = some [v, u]) := by
  constructor
  · intro it p rest sc hpta hlast hsc
    rw [scoreList, hpta] at hsc
    simp only [Option.bind_eq_bind, Option.some_bind, if_pos hlast] at hsc
    rcases ht : scoreList s rest with _ | tail
    · rw [ht] at hsc
      exact Option.noConfusion hsc
    · rw [ht] at hsc
      simp only [Option.bind_eq_bind, Option.some_bind] at hsc
      exact ⟨tail, rfl, (Option.some.inj hsc).symm⟩
  · intro u v c hpl hlast hne hu hv hc hd0 hd1
    have hcd : c * s.discount < c := by nlinarith
    have hguardv : ¬(s.last_selected_id = some v.id) := by
      intro hgv
      exact hne (Option.some.inj (hlast.symm.trans hgv)).symm
    rcases hpl with h | h
    · have hsc : scoreList s s.playlist =
          some [(c * s.discount, u), (c, v)] := by
        rw [h, scoreList, hu]
        simp only [Option.bind_eq_bind, Option.some_bind, if_pos hlast]
        rw [scoreList, hv]
        simp only [Option.bind_eq_bind, Option.some_bind, if_neg hguardv]
        rw [scoreList]
        rfl
      rw [selection, hsc]
      show some ((pySlice (sortDesc [(c * s.discount, u), (c, v)]) 2).map
        Prod.snd) = _
      rw [show sortDesc [(c * s.discount, u), (c, v)] =
          [(c, v), (c * s.discount, u)] by
        simp only [sortDesc, insertDesc]
        rw [if_pos hcd]]
      rw [pySlice, if_pos (by norm_num)]
      rfl
    · have hsc : scoreList s s.playlist =
          some [(c, v), (c * s.discount, u)] := by
        rw [h, scoreList, hv]
        simp only [Option.bind_eq_bind, Option.some_bind, if_neg hguardv]
        rw [scoreList, hu]
        simp only [Option.bind_eq_bind, Option.some_bind, if_pos hlast]
        rw [scoreList]
        rfl
      rw [selection, hsc]
      show some ((pySlice (sortDesc [(c, v), (c * s.discount, u)]) 2).map
        Prod.snd) = _
      rw [show sortDesc [(c, v), (c * s.discount, u)] =
          [(c, v), (c * s.discount, u)] by
        simp only [sortDesc, insertDesc]
        rw [if_neg (not_lt.mpr (le_of_lt hcd))]]
      rw [pySlice, if_pos (by norm_num)]
      rfl

/-- Determinant fact for the `1×1` matrix `1·I + x xᵀ` with `x = (1)`. -/
theorem oneDimA_det :
    IsUnit ((1 : ℝ) • (1 : Matrix (Fin 1) (Fin 1) ℝ) +
      vecMulVec (fun _ : Fin 1 => (1 : ℝ)) (fun _ : Fin 1 => (1 : ℝ))).det := by
  rw [Matrix.det_fin_one]
  have h : ((1 : ℝ) • (1 : Matrix (Fin 1) (Fin 1) ℝ) +
      vecMulVec (fun _ : Fin 1 => (1 : ℝ)) (fun _ : Fin 1 => (1 : ℝ))) 0 0 = 2 := by
    simp [Matrix.add_apply, Matrix.smul_apply, Matrix.one_apply, vecMulVec_apply]
    norm_num
  rw [h]
  exact isUnit_iff_ne_zero.mpr two_ne_zero

/-- Solution certificate: `(1·I + x xᵀ) θ = b` for `θ = (-1/2)`,
`b = 0 + (-1)·x`, `x = (1)`. -/
theorem oneDimA_solve_neg :
    ((1 : ℝ) • (1 : Matrix (Fin 1) (Fin 1) ℝ) +
      vecMulVec (fun _ : Fin 1 => (1 : ℝ)) (fun _ : Fin 1 => (1 : ℝ))) *ᵥ (fun _ : Fin 1 => (-(1/2) : ℝ)) =
    (0 : Fin 1 → ℝ) + (-1 : ℝ) • (fun _ : Fin 1 => (1 : ℝ)) := by
  funext i
  have hi : i = 0 := Subsingleton.elim i 0
  subst hi
  simp [Matrix.mulVec, dotProduct, Fin.sum_univ_one, Matrix.add_apply,
    Matrix.smul_apply, Matrix.one_apply, vecMulVec_apply]
  norm_num

/-- Solution certificate: `(1·I + x xᵀ) θ = b` for `θ = (1/2)`,
`b = 0 + 1·x`, `x = (1)`. -/
theorem oneDimA_solve_pos :
    ((1 : ℝ) • (1 : Matrix (Fin 1) (Fin 1) ℝ) +
      vecMulVec (fun _ : Fin 1 => (1 : ℝ)) (fun _ : Fin 1 => (1 : ℝ))) *ᵥ (fun _ : Fin 1 => ((1/2) : ℝ)) =
    (0 : Fin 1 → ℝ) + (1 : ℝ) • (fun _ : Fin 1 => (1 : ℝ)) := by
  funext i
  have hi : i = 0 := Subsingleton.elim i 0
  subst hi
  simp [Matrix.mulVec, dotProduct, Fin.sum_univ_one, Matrix.add_apply,
    Matrix.smul_apply, Matrix.one_apply, vecMulVec_apply]
  norm_num

/-- Undiscounted score of arm 0 in `negPairState`. -/
theorem negPair_pta0 : ptaOf negPairState ⟨0, fun _ => 1⟩ = some (-(1/2)) := by
  have h := ptaOf_LinUCB negPairState ⟨0, fun _ => 1⟩
    ((1 : ℝ) • (1 : Matrix (Fin 1) (Fin 1) ℝ) +
      vecMulVec (fun _ : Fin 1 => (1 : ℝ)) (fun _ : Fin 1 => (1 : ℝ)))
    ((0 : Fin 1 → ℝ) + (-1 : ℝ) • (fun _ : Fin 1 => (1 : ℝ))) (fun _ : Fin 1 => (-(1/2) : ℝ))
    rfl rfl rfl oneDimA_det oneDimA_solve_neg
  rw [h, show negPairState.alpha = (0 : ℝ) from rfl]
  norm_num [dotProduct, Fin.sum_univ_one]

/-- Undiscounted score of arm 1 in `negPairState`. -/
theorem negPair_pta1 : ptaOf negPairState ⟨1, fun _ => 1⟩ = some (-(1/2)) := by
  have h := ptaOf_LinUCB negPairState ⟨1, fun _ => 1⟩
    ((1 : ℝ) • (1 : Matrix (Fin 1) (Fin 1) ℝ) +
      vecMulVec (fun _ : Fin 1 => (1 : ℝ)) (fun _ : Fin 1 => (1 : ℝ)))
    ((0 : Fin 1 → ℝ) + (-1 : ℝ) • (fun _ : Fin 1 => (1 : ℝ))) (fun _ : Fin 1 => (-(1/2) : ℝ))
    rfl rfl rfl oneDimA_det oneDimA_solve_neg
  rw [h, show negPairState.alpha = (0 : ℝ) from rfl]
  norm_num [dotProduct, Fin.sum_univ_one]

/-- C5 counterexample: in `negPairState` both arms have equal undiscounted
scores (`-1/2`) and arm 0 is the last selected one, yet selection ranks arm 0
first — the discount multiplies a negative score and thereby *raises* it —
refuting the claim that the other arm must rank strictly before. -/
theorem claim5_cex_equal_scores_last_ranks_first :
    (mkRecommender [(⟨0, fun _ => 1⟩ : MusicItem 1), ⟨1, fun _ => 1⟩] 0 1
        .LinUCB (7/10) (RNNParams.zero 1 0)).bind
      (fun s0 => runFeedback s0
        [(⟨1, fun _ => 1⟩, -1), (⟨0, fun _ => 1⟩, -1)]) = some negPairState ∧
    ptaOf negPairState ⟨0, fun _ => 1⟩ = ptaOf negPairState ⟨1, fun _ => 1⟩ ∧
    negPairState.last_selected_id = some 0 ∧
    selection negPairState 2 = some [⟨0, fun _ => 1⟩, ⟨1, fun _ => 1⟩] := by
  refine ⟨rfl, negPair_pta0.trans negPair_pta1.symm, rfl, ?_⟩
  have hsc : scoreList negPairState negPairState.playlist =
      some [(-(1/2) * (7/10), ⟨0, fun _ => 1⟩), (-(1/2), ⟨1, fun _ => 1⟩)] := by
    rw [show negPairState.playlist =
      [(⟨0, fun _ => 1⟩ : MusicItem 1), ⟨1, fun _ => 1⟩] from rfl]
    simp only [scoreList, negPair_pta0, negPair_pta1, Option.bind_eq_bind,
      Option.some_bind]
    rw [if_neg (show ¬(negPairState.last_selected_id = some (1 : ℕ)) by decide),
      if_pos (show negPairState.last_selected_id = some (0 : ℕ) from rfl),
      show negPairState.discount = (7/10 : ℝ) from rfl]
    rfl
  rw [selection, hsc]
  show some ((pySlice (sortDesc [(-(1/2) * (7/10), ⟨0, fun _ => 1⟩),
    (-(1/2), ⟨1, fun _ => 1⟩)]) 2).map Prod.snd) = _
  rw [show sortDesc [((-(1/2) * (7/10) : ℝ), (⟨0, fun _ => 1⟩ : MusicItem 1)),
      (-(1/2), ⟨1, fun _ => 1⟩)] =
      [(-(1/2) * (7/10), ⟨0, fun _ => 1⟩), (-(1/2), ⟨1, fun _ => 1⟩)] by
    simp only [sortDesc, insertDesc]
    rw [if_neg (by norm_num)]]
  rw [pySlice, if_pos (by norm_num)]
  rfl

/-- Undiscounted score of arm 0 in `posPairState`. -/
theorem posPair_pta0 : ptaOf posPairState ⟨0, fun _ => 1⟩ = some (1/2) := by
  have h := ptaOf_LinUCB posPairState ⟨0, fun _ => 1⟩
    ((1 : ℝ) • (1 : Matrix (Fin 1) (Fin 1) ℝ) +
      vecMulVec (fun _ : Fin 1 => (1 : ℝ)) (fun _ : Fin 1 => (1 : ℝ)))
    ((0 : Fin 1 → ℝ) + (1 : ℝ) • (fun _ : Fin 1 => (1 : ℝ))) (fun _ : Fin 1 => ((1/2) : ℝ))
    rfl rfl rfl oneDimA_det oneDimA_solve_pos
  rw [h, show posPairState.alpha = (0 : ℝ) from rfl]
  norm_num [dotProduct, Fin.sum_univ_one]

/-- Undiscounted score of arm 1 in `posPairState`. -/
theorem posPair_pta1 : ptaOf posPairState ⟨1, fun _ => 1⟩ = some (1/2) := by
  have h := ptaOf_LinUCB posPairState ⟨1, fun _ => 1⟩
    ((1 : ℝ) • (1 : Matrix (Fin 1) (Fin 1) ℝ) +
      vecMulVec (fun _ : Fin 1 => (1 : ℝ)) (fun _ : Fin 1 => (1 : ℝ)))
    ((0 : Fin 1 → ℝ) + (1 : ℝ) • (fun _ : Fin 1 => (1 : ℝ))) (fun _ : Fin 1 => ((1/2) : ℝ))
    rfl rfl rfl oneDimA_det oneDimA_solve_pos
  rw [h, show posPairState.alpha = (0 : ℝ) from rfl]
  norm_num [dotProduct, Fin.sum_univ_one]

/-- C5 witness: instantiation of `claim5_repeat_discount` on `posPairState`,
where both arms score `1/2 > 0`, arm 0 was last selected and the discount is
`7/10 ∈ (0,1)`: arm 1 ranks first. -/
theorem claim5_witness :
    selection posPairState 2 =
      some [⟨1, fun _ => 1⟩, ⟨0, fun _ => 1⟩] :=
  (claim5_repeat_discount posPairState).2 ⟨0, fun _ => 1⟩ ⟨1, fun _ => 1⟩
    (1/2) (Or.inl rfl) rfl (by decide) posPair_pta0 posPair_pta1
    (by norm_num)
    (by rw [show posPairState.discount = (7/10 : ℝ) from rfl]; norm_num)
    (by rw [show posPairState.discount = (7/10 : ℝ) from rfl]; norm_num)

/-! ## C9 -/

/-- Closed form of a single `feedback` call in `LinUCB` mode. -/
theorem feedback_LinUCB {d H : ℕ} (s : RecState d H) (item : MusicItem d)
    (r : ℝ) (A : Matrix (Fin d) (Fin d) ℝ) (b : Fin d → ℝ)
    (hA : s._A item.id = some A) (hb : s._b item.id = some b)
    (hpol : s.policy = .LinUCB) :
    feedback s item r = some
      { s with
        _A := Function.update s._A item.id
          (some (A + vecMulVec item.features item.features))
        _b := Function.update s._b item.id (some (b + r • item.features))
        last_selected_id := some item.id } := by
  simp [feedback, hA, hb, hpol]

/-- Closed form of `n + 1` identical `feedback` calls in `LinUCB` mode:
`A` accumulates `(n+1)` copies of the rank-1 update and `b` accumulates
`(n+1)·r` copies of the feature vector. -/
theorem runFeedback_replicate {d H : ℕ} (item : MusicItem d) (r : ℝ) :
    ∀ (n : ℕ) (s : RecState d H) (A : Matrix (Fin d) (Fin d) ℝ)
      (b : Fin d → ℝ),
      s.policy = .LinUCB → s._A item.id = some A → s._b item.id = some b →
      runFeedback s (List.replicate (n + 1) (item, r)) = some
        { s with
          _A := Function.update s._A item.id
            (some (A + (n + 1) • vecMulVec item.features item.features))
          _b := Function.update s._b item.id
            (some (b + (((n : ℝ) + 1) * r) • item.features))
          last_selected_id := some item.id } := by
  intro n
  induction n with
  | zero =>
    intro s A b hpol hA hb
    rw [List.replicate_succ, List.replicate_zero]
    simp only [runFeedback, feedback_LinUCB s item r A b hA hb hpol,
      Option.some_bind]
    simp only [zero_add, one_nsmul, Nat.cast_zero, one_mul]
  | succ n ih =>
    intro s A b hpol hA hb
    rw [List.replicate_succ]
    rw [show runFeedback s ((item, r) :: List.replicate (n + 1) (item, r)) =
      (feedback s item r).bind
        (fun s' => runFeedback s' (List.replicate (n + 1) (item, r))) from rfl]
    rw [feedback_LinUCB s item r A b hA hb hpol, Option.some_bind]
    rw [ih { s with
        _A := Function.update s._A item.id
          (some (A + vecMulVec item.features item.features))
        _b := Function.update s._b item.id (some (b + r • item.features))
        last_selected_id := some item.id }
      (A + vecMulVec item.features item.features) (b + r • item.features)
      hpol (Function.update_same _ _ _) (Function.update_same _ _ _)]
    have hAeq : A + vecMulVec item.features item.features +
        (n + 1) • vecMulVec item.features item.features =
        A + (n + 1 + 1) • vecMulVec item.features item.features := by
      rw [succ_nsmul (vecMulVec item.features item.features) (n + 1)]
      abel
    have hbeq : b + r • item.features +
        (((n : ℝ) + 1) * r) • item.features =
        b + ((((n + 1 : ℕ) : ℝ) + 1) * r) • item.features := by
      funext i
      simp only [Pi.add_apply, Pi.smul_apply, smul_eq_mul]
      push_cast
      ring
    rw [Function.update_idem, Function.update_idem, hAeq, hbeq]

/-- Determinant fact for the scenario's arm-A matrix `I + 10·x xᵀ`,
`x = (1,0)`. -/
theorem endA_det :
    IsUnit ((1 : ℝ) • (1 : Matrix (Fin 2) (Fin 2) ℝ) +
      (10 : ℕ) • vecMulVec ![(1 : ℝ), 0] ![(1 : ℝ), 0]).det := by
  rw [Matrix.det_fin_two]
  norm_num [Matrix.add_apply, Matrix.smul_apply, Matrix.one_apply,
    vecMulVec_apply, Matrix.cons_val_zero, Matrix.cons_val_one,
    Matrix.head_cons, smul_eq_mul, nsmul_eq_mul]

/-- Solution certificate for arm A after the ten feedback calls:
`(I + 10·x xᵀ) θ = b` with `θ = (10/11, 0)` and `b = 10·x`. -/
theorem endA_solve :
    ((1 : ℝ) • (1 : Matrix (Fin 2) (Fin 2) ℝ) +
      (10 : ℕ) • vecMulVec ![(1 : ℝ), 0] ![(1 : ℝ), 0]) *ᵥ ![(10/11 : ℝ), 0] =
    (0 : Fin 2 → ℝ) + ((((9 : ℕ) : ℝ) + 1) * 1) • ![(1 : ℝ), 0] := by
  funext i
  fin_cases i <;>
    norm_num [Matrix.mulVec, dotProduct, Fin.sum_univ_two, Matrix.add_apply,
      Matrix.smul_apply, Matrix.one_apply, vecMulVec_apply,
      Matrix.cons_val_zero, Matrix.cons_val_one, Matrix.head_cons,
      nsmul_eq_mul]

/-- Determinant fact for arm B (statistics unchanged at `l2·I = I`). -/
theorem endB_det :
    IsUnit ((1 : ℝ) • (1 : Matrix (Fin 2) (Fin 2) ℝ)).det := by
  rw [one_smul, Matrix.det_one]
  exact isUnit_one

/-- Solution certificate for arm B: `θ = 0` solves `A θ = 0`. -/
theorem endB_solve :
    ((1 : ℝ) • (1 : Matrix (Fin 2) (Fin 2) ℝ)) *ᵥ (0 : Fin 2 → ℝ) =
      (0 : Fin 2 → ℝ) :=
  Matrix.mulVec_zero _

/-- C9: end-to-end scenario — `d = 2`, arms `A = (1,0)` and `B = (0,1)`,
`alpha = 0`, `l2 = 1`, default LinUCB policy; after 10 feedback calls of
reward `1` on arm A only, `selection(1)` returns arm A, for every discount
factor in `(0, 1]` (even though arm A is the last selected item). -/
theorem claim9_end_to_end (dis : ℝ) (hd0 : 0 < dis) (_hd1 : dis ≤ 1) :
    ((mkRecommender [itemA, itemB] 0 1 .LinUCB dis
        (RNNParams.zero 2 0)).bind
      (fun s0 => runFeedback s0 (List.replicate 10 (itemA, 1)))).bind
      (fun s => selection s 1) = some [itemA] := by
  have hmk : mkRecommender [itemA, itemB] 0 1 .LinUCB dis
      (RNNParams.zero 2 0) = some (endState0 dis) := rfl
  have hrun : runFeedback (endState0 dis) (List.replicate 10 (itemA, 1)) =
      some (endState10 dis) := by
    rw [show (10 : ℕ) = 9 + 1 from rfl]
    exact runFeedback_replicate itemA 1 9 (endState0 dis)
      ((1 : ℝ) • 1) 0 rfl rfl rfl
  rw [hmk, Option.some_bind, hrun, Option.some_bind]
  have hptaA : ptaOf (endState10 dis) itemA = some (10/11) := by
    have h := ptaOf_LinUCB (endState10 dis) itemA
      ((1 : ℝ) • 1 + (10 : ℕ) • vecMulVec ![(1 : ℝ), 0] ![(1 : ℝ), 0])
      ((0 : Fin 2 → ℝ) + ((((9 : ℕ) : ℝ) + 1) * 1) • ![(1 : ℝ), 0])
      ![(10/11 : ℝ), 0] rfl rfl rfl endA_det endA_solve
    rw [h, show (endState10 dis).alpha = (0 : ℝ) from rfl]
    norm_num [itemA, dotProduct, Fin.sum_univ_two, Matrix.cons_val_zero,
      Matrix.cons_val_one, Matrix.head_cons]
  have hptaB : ptaOf (endState10 dis) itemB = some 0 := by
    have h := ptaOf_LinUCB (endState10 dis) itemB
      ((1 : ℝ) • 1) (0 : Fin 2 → ℝ) (0 : Fin 2 → ℝ)
      rfl rfl rfl endB_det endB_solve
    rw [h, show (endState10 dis).alpha = (0 : ℝ) from rfl]
    norm_num [itemB, dotProduct, Fin.sum_univ_two, Matrix.cons_val_zero,
      Matrix.cons_val_one, Matrix.head_cons]
  have hsc : scoreList (endState10 dis) (endState10 dis).playlist =
      some [(10/11 * dis, itemA), (0, itemB)] := by
    rw [show (endState10 dis).playlist = [itemA, itemB] from rfl]
    simp only [scoreList, hptaA, hptaB, Option.bind_eq_bind, Option.some_bind]
    rfl
  rw [selection, hsc]
  show some ((pySlice (sortDesc [(10/11 * dis, itemA), (0, itemB)]) 1).map
    Prod.snd) = _
  rw [show sortDesc [((10/11 * dis : ℝ), itemA), (0, itemB)] =
      [(10/11 * dis, itemA), (0, itemB)] by
    simp only [sortDesc, insertDesc]
    rw [if_neg (not_lt.mpr (by positivity))]]
  rw [pySlice, if_pos (by norm_num)]
  rfl

/-- C9 witness: the scenario at the concrete default discount `0.7`. -/
theorem claim9_witness :
    ((mkRecommender [itemA, itemB] 0 1 .LinUCB (7/10)
        (RNNParams.zero 2 0)).bind
      (fun s0 => runFeedback s0 (List.replicate 10 (itemA, 1)))).bind
      (fun s => selection s 1) = some [itemA] :=
  claim9_end_to_end (7/10) (by norm_num) (by norm_num)

/-! ## C1 -/

/-- C1 counterexample: the residual model's *first* training call does update
the trainable parameters.  Starting from all-zero parameters (a point of the
random initialization's support) with input `(1)` and reward `1`, the first
`train_per_update` changes `b_output` away from `0`, refuting the claim that
the first call only seeds the deferred state. -/
theorem claim1_cex_first_call_trains :
    rnnZeroState.params.b_output 0 = 0 ∧
    (trainPerUpdate rnnZeroState (fun _ => 1) 1 (1e-3)).params.b_output 0 ≠
      rnnZeroState.params.b_output 0 := by
  refine ⟨rfl, ?_⟩
  show (trainPerUpdate rnnZeroState (fun _ => 1) 1 (1e-3)).params.b_output 0 ≠ 0
  simp only [trainPerUpdate, rnnZeroState, RNNState.start, RNNParams.zero,
    AdamState.start, lossGrad, adamUpdate, RNNParams.map2, RNNParams.map3,
    rnnForward, adamBeta1, adamBeta2, adamEps, Matrix.mulVec, dotProduct,
    Finset.sum_const_zero, mul_zero, zero_mul, add_zero, zero_add,
    Fin.sum_univ_one]
  intro hcontra
  rw [show ((1 : ℝ) - 0.999) * (2 * (0 - 1) * 1) ^ 2 / (1 - 0.999 ^ 1) = 4
    by norm_num] at hcontra
  rw [show (4 : ℝ) = 2 ^ 2 by norm_num,
    Real.sqrt_sq (by norm_num : (0 : ℝ) ≤ 2)] at hcontra
  norm_num at hcontra

/-- C1 (amended): `train_per_update` seeds the deferred state on the first
call and then *still trains in that same call* — it behaves exactly like a
running-mode call with `last_input := x`, `last_hidden := 0`.  In running
mode the call performs one Adam step on the gradient of the squared-error
loss whose prediction is `β̂ᵀ·x_now` (the *current* input), where `β̂` and the
new hidden state are computed by the forward pass on the *previous* call's
input and hidden state; consequently the new hidden state and cached `β_t`
are independent of the input and reward supplied to the current call. -/
theorem claim1_delayed_bootstrap {d H : ℕ} :
    (∀ (s : RNNState d H) (x : Fin d → ℝ) (r lr : ℝ),
      (s.X_t_1 = none ∨ s.h_t_1 = none) →
      trainPerUpdate s x r lr =
        trainPerUpdate
          { s with X_t_1 := some x, h_t_1 := some (fun _ => 0) } x r lr ∧
      (trainPerUpdate s x r lr).X_t_1 = some x) ∧
    (∀ (s : RNNState d H) (xp : Fin d → ℝ) (hp : Fin H → ℝ)
      (x : Fin d → ℝ) (r lr : ℝ),
      s.X_t_1 = some xp → s.h_t_1 = some hp →
      trainPerUpdate s x r lr =
        { params := (adamUpdate lr s.adam s.params
            (lossGrad s.params xp hp x r)).2
          X_t_1 := some x
          h_t_1 := some (rnnForward s.params xp (some hp)).1
          beta_t := (rnnForward s.params xp (some hp)).2
          adam := (adamUpdate lr s.adam s.params
            (lossGrad s.params xp hp x r)).1 }) ∧
    (∀ (s : RNNState d H) (xp : Fin d → ℝ) (hp : Fin H → ℝ)
      (x x' : Fin d → ℝ) (r r' lr lr' : ℝ),
      s.X_t_1 = some xp → s.h_t_1 = some hp →
      (trainPerUpdate s x r lr).h_t_1 = (trainPerUpdate s x' r' lr').h_t_1 ∧
      (trainPerUpdate s x r lr).beta_t =
        (trainPerUpdate s x' r' lr').beta_t) := by
  refine ⟨?_, ?_, ?_⟩
  · intro s x r lr hor
    constructor
    · rcases hX : s.X_t_1 with _ | xp
      · simp [trainPerUpdate, hX]
      · rcases hh : s.h_t_1 with _ | hp
        · simp [trainPerUpdate, hX, hh]
        · exfalso
          rcases hor with h | h
          · rw [hX] at h
            exact Option.noConfusion h
          · rw [hh] at h
            exact Option.noConfusion h
    · simp [trainPerUpdate]
  · intro s xp hp x r lr hX hh
    simp [trainPerUpdate, hX, hh]
  · intro s xp hp x x' r r' lr lr' hX hh
    constructor <;> simp [trainPerUpdate, hX, hh]

/-- C1 witness: instantiation of `claim1_delayed_bootstrap` — the first call
on the zero-initialized model equals the seeded running-mode call, and in
running mode the new hidden state does not depend on the current input,
reward or learning rate. -/
theorem claim1_witness :
    (trainPerUpdate rnnZeroState (fun _ => 1) 1 (1e-3) =
      trainPerUpdate
        { rnnZeroState with
          X_t_1 := some (fun _ => 1)
          h_t_1 := some (fun _ => 0) } (fun _ => 1) 1 (1e-3)) ∧
    (trainPerUpdate rnnSeeded (fun _ => 1) 2 (1e-3)).h_t_1 =
      (trainPerUpdate rnnSeeded (fun _ => 2) 3 (1e-2)).h_t_1 :=
  ⟨(claim1_delayed_bootstrap.1 rnnZeroState (fun _ => 1) 1 (1e-3)
      (Or.inl rfl)).1,
    (claim1_delayed_bootstrap.2.2 rnnSeeded (fun _ => 1) (fun _ => 0)
      (fun _ => 1) (fun _ => 2) 2 3 (1e-3) (1e-2) rfl rfl).1⟩

end

end Claims

end MusicRec
